import Mathlib

/-!
Formatting of the kernel ring buffer by `dmesg`.

A shallow embedding of the formatting part of `dmesg_main`
(`util-linux/dmesg.c`, lines 126-176) and of `set_color` (lines 79-82).

Bytes are natural numbers.  The buffer returned by `klogctl` is the list
`buf` of its `len` valid bytes; `tail` is whatever follows these bytes in
memory (only `sscanf` can look at it).  The standard output is a list of
output calls (`Emit`), rendered to bytes by `render`.
-/

namespace Dmesg

/-! ## Build-time configuration and option bits -/

/-- The two build-time switches that the formatter tests. -/
structure Config where
  ENABLE_FEATURE_DMESG_PRETTY : Bool
  ENABLE_FEATURE_DMESG_COLOR : Bool
deriving DecidableEq, Repr

def OPT_c : Nat := 1
def OPT_s : Nat := 2
def OPT_n : Nat := 4
def OPT_r : Nat := 8
def OPT_C : Nat := 16

/-! ## Colours -/

def COLOR_DEFAULT : Int := 0
def COLOR_WHITE : Int := 97
def COLOR_YELLOW : Int := 93
def COLOR_ORANGE : Int := 33
def COLOR_RED : Int := 91

/-- The `switch (level)` of lines 139-149. -/
def colorOfLevel (level : Int) : Int :=
  if level = 1 then COLOR_RED
  else if level = 2 then COLOR_RED
  else if level = 3 then COLOR_RED
  else if level = 4 then COLOR_ORANGE
  else if level = 5 then COLOR_YELLOW
  else if level = 7 then COLOR_WHITE
  else COLOR_DEFAULT

/-- Decimal digits of a natural number, most significant first, as bytes. -/
def decimalNat (n : Nat) : List Nat :=
  (Nat.toDigits 10 n).map Char.toNat

/-- The bytes `printf` produces for `%d`. -/
def decimal (n : Int) : List Nat :=
  if n < 0 then 45 :: decimalNat n.natAbs else decimalNat n.natAbs

/-- Bytes written by `set_color(color)`: `printf("%c[%dm", 0x1B, color)`. -/
def set_color (color : Int) : List Nat :=
  [0x1B, 91] ++ decimal color ++ [109]

/-! ## Output calls -/

/-- One call that writes to the standard output. -/
inductive Emit where
  | putchar (c : Nat)
  | set_color (color : Int)
  | full_write (bytes : List Nat)
deriving DecidableEq, Repr

/-- The bytes one output call writes. -/
def Emit.bytes : Emit → List Nat
  | .putchar c => [c]
  | .set_color k => Dmesg.set_color k
  | .full_write bs => bs

/-- The bytes a sequence of output calls writes. -/
def render : List Emit → List Nat
  | [] => []
  | e :: es => e.bytes ++ render es

/-! ## `sscanf(lvl, "%d", &level)` -/

/-- The C `isspace` in the C locale. -/
def isspace (c : Nat) : Bool := c = 32 || (9 ≤ c && c ≤ 13)

/-- The C `isdigit`. -/
def isdigit (c : Nat) : Bool := 48 ≤ c && c ≤ 57

/-- Leading white space is skipped by `%d`. -/
def skipSpace : List Nat → List Nat
  | [] => []
  | c :: t => if isspace c then skipSpace t else c :: t

/-- Value of the longest run of decimal digits at the head of the string. -/
def scanDigits : Nat → List Nat → Nat
  | acc, [] => acc
  | acc, c :: t => if isdigit c then scanDigits (acc * 10 + (c - 48)) t else acc

/-- Conversion of the parsed value to `int` as the C libraries in use do it:
the value saturates to the range of `long` (64 bits) and is then truncated
to 32 bits, two's complement.  For a value that fits an `int` this is the
value itself. -/
def toInt32 (v : Int) : Int :=
  let w := max (-(2 ^ 63 : Int)) (min v (2 ^ 63 - 1))
  (w + 2 ^ 31) % 2 ^ 32 - 2 ^ 31

/-- The conversion `sscanf(s, "%d", &level)` performs on the string `s`
(the end of the list stands for the terminating NUL): `some v` when an
integer was converted and stored, `none` on a matching failure, in which
case `level` is not written. -/
def sscanf_d (s : List Nat) : Option Int :=
  match skipSpace s with
  | [] => none
  | c :: t =>
    if c = 45 then
      match t with
      | [] => none
      | d :: _ => if isdigit d then some (toInt32 (-(scanDigits 0 t : Nat))) else none
    else if c = 43 then
      match t with
      | [] => none
      | d :: _ => if isdigit d then some (toInt32 (scanDigits 0 t)) else none
    else if isdigit c then some (toInt32 (scanDigits 0 (c :: t)))
    else none

/-! ## The scan -/

/-- The local variables of the scan: `last`, `in`, `level`, `color`. -/
structure Scan where
  last : Nat
  pos : Nat
  level : Int
  color : Int
deriving DecidableEq, Repr

/-- Reading `buf[i]`. -/
def rd (mem : List Nat) (i : Nat) : Nat := mem.getD i 0

/-- The loop of line 154, `while (buf[in++] != '>' && in < len) ;`,
started with `in = i`; the result is the value of `in` after the loop.
Every iteration advances `in`, so `len - i` iterations are enough. -/
def skipTag (mem : List Nat) (len : Nat) : Nat → Nat → Nat
  | 0, i => i
  | fuel + 1, i =>
    let c := rd mem i
    let i := i + 1
    if c ≠ 62 ∧ i < len then skipTag mem len fuel i else i

/-- One iteration of the `while (1)` loop of line 131, up to the test of
line 160: the new local variables and the output calls made. -/
def scanStep (colorOn : Bool) (mem : List Nat) (len : Nat) (s : Scan) : Scan × List Emit :=
  if s.last = 10 ∧ rd mem s.pos = 60 then
    if colorOn then
      let level := match sscanf_d (mem.drop (s.pos + 1)) with
        | some v => v
        | none => s.level
      let color := colorOfLevel level
      ({ s with level := level, color := color, pos := skipTag mem len len s.pos },
        [Emit.set_color color])
    else
      ({ s with pos := skipTag mem len len s.pos }, [])
  else
    let c := rd mem s.pos
    ({ s with last := c, pos := s.pos + 1 }, [Emit.putchar c])

/-- The `while (1)` loop of lines 131-162.  Every iteration advances `in`
and the loop is left when `in >= len`, so `len` iterations are enough. -/
def scanLoop (colorOn : Bool) (mem : List Nat) (len : Nat) : Nat → Scan → Scan × List Emit
  | 0, s => (s, [])
  | fuel + 1, s =>
    let r := scanStep colorOn mem len s
    if len ≤ r.1.pos then r
    else
      let r2 := scanLoop colorOn mem len fuel r.1
      (r2.1, r.2 ++ r2.2)

/-- Whether the branch of lines 135-152 runs: the colour feature is built
in and `-C` was given. -/
def colorOn (cfg : Config) (opts : Nat) : Bool :=
  cfg.ENABLE_FEATURE_DMESG_COLOR && decide (opts &&& OPT_C ≠ 0)

/-- The test of line 126. -/
def prettyBranch (cfg : Config) (opts : Nat) : Bool :=
  (cfg.ENABLE_FEATURE_DMESG_PRETTY || decide (opts &&& OPT_C ≠ 0)) && decide (opts &&& OPT_r = 0)

/-- Lines 127-162: the scan of the buffer `buf` (its length is the `len`
returned by the read), where `tail` is the memory that follows the buffer
and `level0` the value the variable `level` holds when the scan starts.
The result is the local variables after the loop and the output calls. -/
def scanRun (cfg : Config) (opts : Nat) (buf tail : List Nat) (level0 : Int) : Scan × List Emit :=
  scanLoop (colorOn cfg opts) (buf ++ tail) buf.length buf.length
    { last := 10, pos := 0, level := level0, color := 0 }

/-- The output calls of the scan. -/
def scanCalls (cfg : Config) (opts : Nat) (buf tail : List Nat) (level0 : Int) : List Emit :=
  (scanRun cfg opts buf tail level0).2

/-- The bytes written by the scan. -/
def scanOutput (cfg : Config) (opts : Nat) (buf tail : List Nat) (level0 : Int) : List Nat :=
  render (scanCalls cfg opts buf tail level0)

/-- Lines 126-176 of `dmesg_main`: the output calls made for the buffer
`buf` (at least one byte long). -/
def formatCalls (cfg : Config) (opts : Nat) (buf tail : List Nat) (level0 : Int) : List Emit :=
  if prettyBranch cfg opts then
    let r := scanRun cfg opts buf tail level0
    r.2 ++ (if r.1.last ≠ 10 then [Emit.putchar 10] else [])
      ++ (if r.1.color ≠ 0 then [Emit.set_color 0] else [])
  else
    [Emit.full_write buf] ++ (if rd buf (buf.length - 1) ≠ 10 then [Emit.putchar 10] else [])

/-- The bytes written to the standard output by lines 126-176. -/
def format (cfg : Config) (opts : Nat) (buf tail : List Nat) (level0 : Int) : List Nat :=
  render (formatCalls cfg opts buf tail level0)

/-- The bytes of a string literal. -/
def bytes (s : String) : List Nat := s.toList.map Char.toNat

/-! ## The scan as a recursion over the unread bytes -/

/-- What is left of the unread bytes after the loop of line 154. -/
def dropTag : List Nat → List Nat
  | [] => []
  | c :: t => if c = 62 then t else dropTag t

/-- The scan as a recursion over the unread bytes `l`, with a flag telling
whether the loop of line 154 is running: the final `last`, `level`,
`color` and the output calls. -/
def scanM (con : Bool) (tail : List Nat) :
    Bool → Nat → Int → Int → List Nat → (Nat × Int × Int) × List Emit
  | _, last, level, color, [] => ((last, level, color), [])
  | true, last, level, color, c :: t =>
    if c = 62 then scanM con tail false last level color t
    else scanM con tail true last level color t
  | false, last, level, color, c :: t =>
    if last = 10 ∧ c = 60 then
      if con then
        let lv := match sscanf_d (t ++ tail) with
          | some v => v
          | none => level
        let r := scanM con tail true 10 lv (colorOfLevel lv) t
        (r.1, Emit.set_color (colorOfLevel lv) :: r.2)
      else scanM con tail true 10 level color t
    else
      let r := scanM con tail false c level color t
      (r.1, Emit.putchar c :: r.2)

/-- The scan over the unread bytes `l`, started outside a tag. -/
def scanL (con : Bool) (tail : List Nat) (last : Nat) (level color : Int) (l : List Nat) :
    (Nat × Int × Int) × List Emit :=
  scanM con tail false last level color l

/-! ## Vocabulary of the statements -/

/-- A line of the log: an optional severity tag, given by its digits, and
the text that follows it up to the newline. -/
structure Line where
  tag : Option (List Nat)
  body : List Nat
deriving DecidableEq, Repr

/-- The bytes of a line in the buffer: `<`, the digits and `>` when there
is a tag, then the body, then the newline. -/
def Line.raw (ln : Line) : List Nat :=
  (match ln.tag with
    | some ds => [60] ++ ds ++ [62]
    | none => []) ++ ln.body ++ [10]

/-- A tag has one or more decimal digits; the body has no newline and does
not start with `<`. -/
def Line.wellFormed (ln : Line) : Bool :=
  (match ln.tag with
    | some ds => !ds.isEmpty && ds.all isdigit
    | none => true)
  && !ln.body.contains 10 && (ln.body.head? != some 60)

/-- The number a string of decimal digits denotes. -/
def digitsVal (ds : List Nat) : Nat :=
  ds.foldl (fun a d => a * 10 + (d - 48)) 0

/-- The value of the tag of a line, when there is one, fits an `int`. -/
def Line.fitsInt (ln : Line) : Bool :=
  match ln.tag with
  | some ds => decide (digitsVal ds < 2 ^ 31)
  | none => true

/-- The buffer made of the given lines. -/
def linesRaw (lines : List Line) : List Nat :=
  lines.flatMap Line.raw

/-- The text of the lines without their tags. -/
def linesText (lines : List Line) : List Nat :=
  lines.flatMap (fun ln => ln.body ++ [10])

/-- The colour of the tag of a line. -/
def Line.color (ln : Line) : Option Int :=
  ln.tag.map (fun ds => colorOfLevel (digitsVal ds))

/-- The expected coloured rendering of a line: the escape sequence of the
colour of its tag, if it has one, then its body and the newline. -/
def Line.colored (ln : Line) : List Nat :=
  (match ln.color with
    | some k => set_color k
    | none => []) ++ ln.body ++ [10]

/-- The colour of the last tagged line, `COLOR_DEFAULT` if no line is
tagged. -/
def lastTagColor (lines : List Line) : Int :=
  lines.foldl (fun k ln => match ln.color with
    | some c => c
    | none => k) COLOR_DEFAULT

/-- The output calls expected for a line: the colour of its tag when
colours are on, then one `putchar` for each byte of the body and for the
newline. -/
def Line.calls (con : Bool) (ln : Line) : List Emit :=
  (match con, ln.color with
    | true, some k => [Emit.set_color k]
    | _, _ => []) ++ ln.body.map Emit.putchar ++ [Emit.putchar 10]

/-- The colour in force after the given lines, when it was `k` before. -/
def colorAfter (con : Bool) (k : Int) (lines : List Line) : Int :=
  if con then
    lines.foldl (fun k ln => match ln.color with
      | some c => c
      | none => k) k
  else k

/-- Pretty mode without colour: pretty printing is built in, neither `-C`
nor `-r` is given. -/
def PrettyNoColor (cfg : Config) (opts : Nat) : Prop :=
  cfg.ENABLE_FEATURE_DMESG_PRETTY = true ∧ opts &&& OPT_C = 0 ∧ opts &&& OPT_r = 0

/-- Colour mode: the colour feature is built in, `-C` is given and `-r` is
not. -/
def ColorMode (cfg : Config) (opts : Nat) : Prop :=
  cfg.ENABLE_FEATURE_DMESG_COLOR = true ∧ opts &&& OPT_C ≠ 0 ∧ opts &&& OPT_r = 0

instance (cfg : Config) (opts : Nat) : Decidable (PrettyNoColor cfg opts) := by
  unfold PrettyNoColor; infer_instance

instance (cfg : Config) (opts : Nat) : Decidable (ColorMode cfg opts) := by
  unfold ColorMode; infer_instance

/-- Raw output is chosen: `-r` is given, or pretty printing is not built
in and `-C` is not given. -/
def RawMode (cfg : Config) (opts : Nat) : Prop :=
  opts &&& OPT_r ≠ 0 ∨ (cfg.ENABLE_FEATURE_DMESG_PRETTY = false ∧ opts &&& OPT_C = 0)

instance (cfg : Config) (opts : Nat) : Decidable (RawMode cfg opts) := by
  unfold RawMode; infer_instance

/-- The three lines of the scenario of the specification. -/
def scenarioLines : List Line :=
  [⟨some (bytes "5"), bytes "kernel start"⟩, ⟨none, bytes "no tag here"⟩,
    ⟨some (bytes "3"), bytes "panic: x"⟩]

/-- The value of `last` after the given output calls of a scan that was
started with `last = d`: the byte of the last call if it is a `putchar`,
a newline if it is another call (a tag was being skipped), `d` if nothing
was written. -/
def lastFrom (d : Nat) (calls : List Emit) : Nat :=
  match calls.getLast? with
  | some (Emit.putchar c) => c
  | some _ => 10
  | none => d

/-- The last output call is a `putchar` of a byte other than the newline. -/
def endsInText (calls : List Emit) : Bool :=
  match calls.getLast? with
  | some (Emit.putchar c) => c != 10
  | _ => false

/-- The colour of the last `set_color` call, `d` when there is none. -/
def lastColor (d : Int) : List Emit → Int
  | [] => d
  | Emit.set_color k :: es => lastColor k es
  | _ :: es => lastColor d es

/-- No `<` stands at the start of a line of `l`, the byte before `l` being
`last`. -/
def noLtAtLineStart : Nat → List Nat → Bool
  | _, [] => true
  | last, c :: t => !(last == 10 && c == 60) && noLtAtLineStart c t

/-- The last byte of `l`, `d` when `l` is empty. -/
def lastOr : Nat → List Nat → Nat
  | d, [] => d
  | _, c :: t => lastOr c t

/-- The bytes start with `<`, one or more decimal digits and `>`. -/
def startsWithTag : List Nat → Bool
  | [] => false
  | c :: t =>
    c == 60 && !(t.takeWhile isdigit).isEmpty && ((t.dropWhile isdigit).head? == some 62)

/-- No line of `l` begins with a severity tag, the byte before `l` being
`last`. -/
def noTaggedLine : Nat → List Nat → Bool
  | _, [] => true
  | last, c :: t => !(last == 10 && startsWithTag (c :: t)) && noTaggedLine c t

/-! ## The whole invocation -/

/-- The answers of the kernel to the `klogctl` calls of one invocation. -/
structure Kernel where
  /-- The result of `klogctl(8, NULL, level)`. -/
  setLevel : Int → Int
  /-- The result of `klogctl(10, NULL, 0)`. -/
  size : Int
  /-- The result of `klogctl(type, buf, len)` for `type` 3 or 4 and the
  memory at `buf` after the call; when the result is `n > 0` the first `n`
  bytes of that memory are the bytes read. -/
  read : Nat → Int → Int × List Nat

/-- How an invocation ends: by `return`, or inside `bb_perror_msg_and_die`
called with the given message. -/
inductive Outcome where
  | returned (code : Nat)
  | died (msg : String)
deriving DecidableEq, Repr

def EXIT_SUCCESS : Nat := 0

/-- Modelled from the spec: `bb_perror_msg_and_die` is not part of
`dmesg.c`.  It prints a diagnostic on the error stream, writes nothing to
the standard output and terminates the process with a nonzero status; the
status is taken to be 1. -/
def xfunc_error_retval : Nat := 1

/-- The exit status of the process. -/
def Outcome.status : Outcome → Nat
  | .returned code => code
  | .died _ => xfunc_error_retval

/-- What one invocation does: its `klogctl` calls in order, each given by
its first and third argument, its calls that write to the standard output,
and how it ends. -/
structure Run where
  syscalls : List (Nat × Int)
  out : List Emit
  outcome : Outcome
deriving DecidableEq, Repr

/-- Lines 111-116: the length passed to `xmalloc` and to the read, where
`len` is the value stored by `getopt32` for `-s` (if given). -/
def readCapacity (k : Kernel) (opts : Nat) (len : Int) : Int :=
  let len := if opts &&& OPT_s = 0 then k.size else len
  let len := if len < 16 * 1024 then 16 * 1024 else len
  let len := if len > 16 * 1024 * 1024 then 16 * 1024 * 1024 else len
  len

/-- The function `dmesg_main`, lines 104-178, after `getopt32` has returned
the option bits `opts` and stored the arguments of `-s` and `-n` in `len`
and `level` (variables that are otherwise not initialised).  The
allocation of `xmalloc` is taken to succeed. -/
def dmesg_main (cfg : Config) (k : Kernel) (opts : Nat) (len level : Int) : Run :=
  if opts &&& OPT_n ≠ 0 then
    if k.setLevel level ≠ 0 then
      { syscalls := [(8, level)], out := [], outcome := Outcome.died "klogctl" }
    else
      { syscalls := [(8, level)], out := [], outcome := Outcome.returned EXIT_SUCCESS }
  else
    let query : List (Nat × Int) := if opts &&& OPT_s = 0 then [(10, 0)] else []
    let cap := readCapacity k opts len
    let r := k.read (3 + (opts &&& OPT_c)) cap
    let calls := query ++ [(3 + (opts &&& OPT_c), cap)]
    if r.1 < 0 then
      { syscalls := calls, out := [], outcome := Outcome.died "klogctl" }
    else if r.1 = 0 then
      { syscalls := calls, out := [], outcome := Outcome.returned EXIT_SUCCESS }
    else
      { syscalls := calls,
        out := formatCalls cfg opts (r.2.take r.1.toNat) (r.2.drop r.1.toNat) level,
        outcome := Outcome.returned EXIT_SUCCESS }

/-- A kernel that answers the calls with the given values. -/
def kernelOf (setLevel size readLen : Int) (mem : List Nat) : Kernel :=
  { setLevel := fun _ => setLevel, size := size, read := fun _ _ => (readLen, mem) }

/-- The output call writes text, not an escape sequence. -/
def Emit.isText : Emit → Bool
  | Emit.set_color _ => false
  | _ => true

/-- The output calls that are left when every escape sequence is deleted. -/
def dropEscapes (calls : List Emit) : List Emit :=
  calls.filter Emit.isText

/-! ## The bytes the formatter reads -/

/-- A read of the byte at an index from `buf`, with the place that makes
it: the scan cursor (`buf[in]` on lines 132 and 157), the loop that skips a
tag (line 154), the severity parse (`sscanf` on line 137), the raw branch
(lines 167 and 168). -/
inductive Read where
  | cursor (i : Nat)
  | skip (i : Nat)
  | parse (i : Nat)
  | raw (i : Nat)
deriving DecidableEq, Repr

/-- The index read. -/
def Read.index : Read → Nat
  | .cursor i => i
  | .skip i => i
  | .parse i => i
  | .raw i => i

/-- The read is made by the severity parse. -/
def Read.isParse : Read → Bool
  | .parse _ => true
  | _ => false

/-- The number of bytes of the string that `sscanf` reads.  The C
libraries in use measure the string before they convert it, so every byte
up to and including the terminating NUL (here also the end of the list) is
read; the bytes the conversion examines (white space, sign, digits and the
byte that ends them) are among these. -/
def sscanf_d_reads (s : List Nat) : Nat :=
  (s.takeWhile (fun c => c != 0)).length + 1

/-- The reads of the loop of line 154 (see `skipTag`). -/
def skipTagReads (mem : List Nat) (len : Nat) : Nat → Nat → List Read
  | 0, _ => []
  | fuel + 1, i =>
    Read.skip i ::
      (if rd mem i ≠ 62 ∧ i + 1 < len then skipTagReads mem len fuel (i + 1) else [])

/-- The reads of one iteration of the loop of line 131 (see `scanStep`):
`buf[in]` in the test of line 132 when `last` is a newline, then either the
parse and the skip loop, or `buf[in]` on line 157. -/
def scanStepReads (colorOn : Bool) (mem : List Nat) (len : Nat) (s : Scan) : List Read :=
  (if s.last = 10 then [Read.cursor s.pos] else []) ++
    (if s.last = 10 ∧ rd mem s.pos = 60 then
      (if colorOn then
        (List.range (sscanf_d_reads (mem.drop (s.pos + 1)))).map
          (fun j => Read.parse (s.pos + 1 + j))
      else []) ++ skipTagReads mem len len s.pos
    else [Read.cursor s.pos])

/-- The reads of the loop of lines 131-162 (see `scanLoop`). -/
def scanLoopReads (colorOn : Bool) (mem : List Nat) (len : Nat) : Nat → Scan → List Read
  | 0, _ => []
  | fuel + 1, s =>
    scanStepReads colorOn mem len s ++
      (if len ≤ (scanStep colorOn mem len s).1.pos then []
        else scanLoopReads colorOn mem len fuel (scanStep colorOn mem len s).1)

/-- The reads from `buf` made by lines 126-176 (see `formatCalls`). -/
def formatReads (cfg : Config) (opts : Nat) (buf tail : List Nat) (level0 : Int) : List Read :=
  if prettyBranch cfg opts then
    scanLoopReads (colorOn cfg opts) (buf ++ tail) buf.length buf.length
      { last := 10, pos := 0, level := level0, color := 0 }
  else
    (List.range buf.length).map Read.raw ++ [Read.raw (buf.length - 1)]

/-! ## Escape sequences in a stream of bytes -/

end Dmesg

namespace Dmesg

/-! ## The loops and the recursion agree -/

theorem rd_append_drop (buf tail : List Nat) (i : Nat) (h : i < buf.length) :
    buf.drop i = rd (buf ++ tail) i :: buf.drop (i + 1) := by
  rw [List.drop_eq_getElem_cons h]
  congr 1
  unfold rd
  rw [List.getD_append _ _ _ _ h, List.getD_eq_getElem _ _ h]

theorem skipTag_spec (buf tail : List Nat) :
    ∀ (fuel i : Nat), i < buf.length → buf.length - i ≤ fuel →
      i < skipTag (buf ++ tail) buf.length fuel i ∧
      skipTag (buf ++ tail) buf.length fuel i ≤ buf.length ∧
      buf.drop (skipTag (buf ++ tail) buf.length fuel i) = dropTag (buf.drop i) := by
  intro fuel
  induction fuel with
  | zero => intro i h1 h2; omega
  | succ n ih =>
    intro i h1 h2
    rw [rd_append_drop buf tail i h1]
    simp only [skipTag, dropTag]
    by_cases hc : rd (buf ++ tail) i = 62
    · simp [hc]; omega
    · by_cases hl : i + 1 < buf.length
      · have := ih (i + 1) hl (by omega)
        simp only [hc, hl, ne_eq, not_false_eq_true, and_self, if_true, if_false]
        refine ⟨by omega, this.2.1, this.2.2⟩
      · have hlen : i + 1 = buf.length := by omega
        simp only [hc, hl, ne_eq, not_false_eq_true, and_false, if_false]
        refine ⟨by omega, by omega, ?_⟩
        rw [hlen, List.drop_length]; rfl

theorem scanM_inTag (con : Bool) (tail : List Nat) (last : Nat) (level color : Int) :
    ∀ l : List Nat, scanM con tail true last level color l
      = scanM con tail false last level color (dropTag l) := by
  intro l
  induction l with
  | nil => simp [scanM, dropTag]
  | cons c t ih =>
    by_cases hc : c = 62
    · simp [scanM, dropTag, hc]
    · simp [scanM, dropTag, hc, ih]

theorem scanL_nil (con : Bool) (tail : List Nat) (last : Nat) (level color : Int) :
    scanL con tail last level color [] = ((last, level, color), []) := by
  simp [scanL, scanM]

theorem scanL_cons (con : Bool) (tail : List Nat) (last : Nat) (level color : Int)
    (c : Nat) (t : List Nat) :
    scanL con tail last level color (c :: t) =
      if last = 10 ∧ c = 60 then
        if con then
          ((scanL con tail 10 (match sscanf_d (t ++ tail) with | some v => v | none => level)
              (colorOfLevel (match sscanf_d (t ++ tail) with | some v => v | none => level))
              (dropTag t)).1,
            Emit.set_color
              (colorOfLevel (match sscanf_d (t ++ tail) with | some v => v | none => level)) ::
            (scanL con tail 10 (match sscanf_d (t ++ tail) with | some v => v | none => level)
              (colorOfLevel (match sscanf_d (t ++ tail) with | some v => v | none => level))
              (dropTag t)).2)
        else scanL con tail 10 level color (dropTag t)
      else
        ((scanL con tail c level color t).1, Emit.putchar c :: (scanL con tail c level color t).2) := by
  simp only [scanL, scanM, scanM_inTag]

/-- The loop of lines 131-162, started inside the buffer with enough
iterations allowed, ends with `in = len` and computes what the recursion
over the unread bytes computes. -/
theorem scanLoop_eq_scanL (con : Bool) (buf tail : List Nat) :
    ∀ (fuel : Nat) (s : Scan), s.pos < buf.length → buf.length - s.pos ≤ fuel →
      scanLoop con (buf ++ tail) buf.length fuel s =
        ({ last := (scanL con tail s.last s.level s.color (buf.drop s.pos)).1.1,
           pos := buf.length,
           level := (scanL con tail s.last s.level s.color (buf.drop s.pos)).1.2.1,
           color := (scanL con tail s.last s.level s.color (buf.drop s.pos)).1.2.2 },
         (scanL con tail s.last s.level s.color (buf.drop s.pos)).2) := by
  intro fuel
  induction fuel with
  | zero => intro s h1 h2; omega
  | succ n ih =>
    intro s h1 h2
    obtain ⟨last, pos, level, color⟩ := s
    simp only at h1 h2 ⊢
    have hsk := skipTag_spec buf tail buf.length pos h1 (by omega)
    have hdrop := rd_append_drop buf tail pos h1
    have htl : (buf ++ tail).drop (pos + 1) = buf.drop (pos + 1) ++ tail :=
      List.drop_append_of_le_length (by omega)
    rw [hdrop] at hsk
    rw [hdrop, scanL_cons]
    simp only [scanLoop, scanStep]
    by_cases hc : last = 10 ∧ rd (buf ++ tail) pos = 60
    · have hd : dropTag (rd (buf ++ tail) pos :: buf.drop (pos + 1)) = dropTag (buf.drop (pos + 1)) := by
        simp [dropTag, hc.2]
      rw [hd] at hsk
      obtain ⟨hk1, hk2, hk3⟩ := hsk
      cases con with
      | true =>
        simp only [hc, and_self, if_true, htl]
        by_cases hend : buf.length ≤ skipTag (buf ++ tail) buf.length buf.length pos
        · have he : skipTag (buf ++ tail) buf.length buf.length pos = buf.length := by omega
          rw [he, List.drop_length] at hk3
          simp only [hend, if_true, ← hk3, scanL_nil, he, le_refl]
        · simp only [hend, if_false]
          rw [ih _ (by simp only; omega) (by simp only; omega)]
          simp only [hk3, List.singleton_append]
      | false =>
        simp only [hc, and_self, if_true, Bool.false_eq_true, if_false]
        by_cases hend : buf.length ≤ skipTag (buf ++ tail) buf.length buf.length pos
        · have he : skipTag (buf ++ tail) buf.length buf.length pos = buf.length := by omega
          rw [he, List.drop_length] at hk3
          simp only [hend, if_true, ← hk3, scanL_nil, he, le_refl]
        · simp only [hend, if_false]
          rw [ih _ (by simp only; omega) (by simp only; omega)]
          simp only [hk3, List.nil_append]
    · simp only [hc, if_false]
      by_cases hend : buf.length ≤ pos + 1
      · have he : pos + 1 = buf.length := by omega
        simp only [hend, if_true, he, List.drop_length, scanL_nil, le_refl]
      · simp only [hend, if_false]
        rw [ih _ (by simp only; omega) (by simp only; omega)]
        simp only [List.singleton_append]

/-- The scan of a non-empty buffer, through the recursion over its bytes. -/
theorem scanRun_eq (cfg : Config) (opts : Nat) (buf tail : List Nat) (level0 : Int)
    (hb : buf ≠ []) :
    scanRun cfg opts buf tail level0 =
      ({ last := (scanL (colorOn cfg opts) tail 10 level0 0 buf).1.1,
         pos := buf.length,
         level := (scanL (colorOn cfg opts) tail 10 level0 0 buf).1.2.1,
         color := (scanL (colorOn cfg opts) tail 10 level0 0 buf).1.2.2 },
       (scanL (colorOn cfg opts) tail 10 level0 0 buf).2) := by
  have hlen : 0 < buf.length := List.length_pos.mpr hb
  unfold scanRun
  rw [scanLoop_eq_scanL _ buf tail buf.length _ hlen (by simp)]
  simp

/-! ## Rendering -/

theorem render_append (a b : List Emit) : render (a ++ b) = render a ++ render b := by
  induction a with
  | nil => rfl
  | cons e es ih => simp [render, ih]

theorem render_putchars (l : List Nat) : render (l.map Emit.putchar) = l := by
  induction l with
  | nil => rfl
  | cons c t ih => simp [render, Emit.bytes, ih]

/-! ## The formatter through the recursion -/

theorem formatCalls_pretty (cfg : Config) (opts : Nat) (buf tail : List Nat) (level0 : Int)
    (hb : buf ≠ []) (hp : prettyBranch cfg opts = true) :
    formatCalls cfg opts buf tail level0 =
      (scanL (colorOn cfg opts) tail 10 level0 0 buf).2
        ++ (if (scanL (colorOn cfg opts) tail 10 level0 0 buf).1.1 ≠ 10
              then [Emit.putchar 10] else [])
        ++ (if (scanL (colorOn cfg opts) tail 10 level0 0 buf).1.2.2 ≠ 0
              then [Emit.set_color 0] else []) := by
  simp only [formatCalls, hp, if_true, scanRun_eq cfg opts buf tail level0 hb]

theorem scanCalls_eq (cfg : Config) (opts : Nat) (buf tail : List Nat) (level0 : Int)
    (hb : buf ≠ []) :
    scanCalls cfg opts buf tail level0 = (scanL (colorOn cfg opts) tail 10 level0 0 buf).2 := by
  simp only [scanCalls, scanRun_eq cfg opts buf tail level0 hb]

theorem rd_last (buf : List Nat) (hb : buf ≠ []) :
    buf.getLast? = some (rd buf (buf.length - 1)) := by
  have hlen : 0 < buf.length := List.length_pos.mpr hb
  have h : buf.length - 1 < buf.length := by omega
  rw [List.getLast?_eq_getElem?, List.getElem?_eq_getElem h]
  unfold rd
  rw [List.getD_eq_getElem _ _ h]

theorem formatCalls_raw (cfg : Config) (opts : Nat) (buf tail : List Nat) (level0 : Int)
    (hb : buf ≠ []) (hp : prettyBranch cfg opts = false) :
    formatCalls cfg opts buf tail level0 =
      [Emit.full_write buf] ++ (if buf.getLast? = some 10 then [] else [Emit.putchar 10]) := by
  simp only [formatCalls, hp, Bool.false_eq_true, if_false, rd_last buf hb, Option.some.injEq]
  by_cases h : rd buf (buf.length - 1) = 10 <;> simp [h]

/-! ## Tags and digits -/

theorem dropTag_tag (ds r : List Nat) (h : ∀ d ∈ ds, d ≠ 62) :
    dropTag (ds ++ 62 :: r) = r := by
  induction ds with
  | nil => simp [dropTag]
  | cons d t ih =>
    have hd : d ≠ 62 := h d (by simp)
    simp only [List.cons_append, dropTag, hd, if_false]
    exact ih (fun x hx => h x (by simp [hx]))

theorem scanDigits_digits (ds : List Nat) (c : Nat) (r : List Nat)
    (hds : ∀ d ∈ ds, isdigit d = true) (hc : isdigit c = false) :
    ∀ acc, scanDigits acc (ds ++ c :: r) = ds.foldl (fun a d => a * 10 + (d - 48)) acc := by
  induction ds with
  | nil => intro acc; simp [scanDigits, hc]
  | cons d t ih =>
    intro acc
    have hd : isdigit d = true := hds d (by simp)
    simp only [List.cons_append, scanDigits, hd, if_true, List.foldl_cons]
    exact ih (fun x hx => hds x (by simp [hx])) _

theorem toInt32_of_fits (v : Nat) (h : v < 2 ^ 31) : toInt32 v = v := by
  unfold toInt32
  have h1 : min (v : Int) (2 ^ 63 - 1) = v := by
    apply min_eq_left; omega
  have h2 : max (-(2 ^ 63 : Int)) (v : Int) = v := by
    apply max_eq_right; omega
  simp only [h1, h2]
  omega

theorem sscanf_d_digits (ds : List Nat) (c : Nat) (r : List Nat)
    (hne : ds ≠ []) (hds : ∀ d ∈ ds, isdigit d = true) (hc : isdigit c = false)
    (hfit : digitsVal ds < 2 ^ 31) :
    sscanf_d (ds ++ c :: r) = some (digitsVal ds : Int) := by
  cases ds with
  | nil => exact absurd rfl hne
  | cons d t =>
    have hd : isdigit d = true := hds d (by simp)
    have hd2 : 48 ≤ d ∧ d ≤ 57 := by simpa [isdigit] using hd
    have hsp : isspace d = false := by
      simp only [isspace, Bool.or_eq_false_iff, decide_eq_false_iff_not, Bool.and_eq_false_iff]
      omega
    have h45 : d ≠ 45 := by omega
    have h43 : d ≠ 43 := by omega
    have hsd := scanDigits_digits (d :: t) c r hds hc 0
    simp only [List.cons_append] at hsd
    have hsd2 : scanDigits 0 (d :: (t ++ c :: r)) = digitsVal (d :: t) := hsd
    simp only [sscanf_d, List.cons_append, skipSpace, hsp, Bool.false_eq_true, if_false, h45, h43,
      hd, if_true]
    show some (toInt32 (scanDigits 0 (d :: (t ++ c :: r)) : Nat)) = _
    rw [hsd2, toInt32_of_fits _ hfit]

/-! ## Modes -/

theorem prettyNoColor_branch {cfg : Config} {opts : Nat} (h : PrettyNoColor cfg opts) :
    prettyBranch cfg opts = true ∧ colorOn cfg opts = false := by
  obtain ⟨h1, h2, h3⟩ := h
  simp [prettyBranch, colorOn, h1, h2, h3]

theorem colorMode_branch {cfg : Config} {opts : Nat} (h : ColorMode cfg opts) :
    prettyBranch cfg opts = true ∧ colorOn cfg opts = true := by
  obtain ⟨h1, h2, h3⟩ := h
  simp [prettyBranch, colorOn, h1, h2, h3]

/-! ## Well-formed lines -/

theorem scanL_copy (con : Bool) (tail : List Nat) (lv col : Int) (more : List Nat) :
    ∀ (body : List Nat) (last : Nat), 10 ∉ body → ¬(last = 10 ∧ body.head? = some 60) →
      scanL con tail last lv col (body ++ 10 :: more) =
        ((scanL con tail 10 lv col more).1,
          body.map Emit.putchar ++ Emit.putchar 10 :: (scanL con tail 10 lv col more).2) := by
  intro body
  induction body with
  | nil => intro last _ _; simp [scanL_cons]
  | cons b bs ih =>
    intro last h10 hlt
    have hb : b ≠ 10 := fun h => h10 (by simp [h])
    have hbs : 10 ∉ bs := fun h => h10 (by simp [h])
    have hc : ¬(last = 10 ∧ b = 60) := by simpa using hlt
    rw [List.cons_append, scanL_cons, if_neg hc, ih b hbs (by simp [hb])]
    simp

theorem Line.wellFormed_body {ln : Line} (h : ln.wellFormed = true) :
    10 ∉ ln.body ∧ ln.body.head? ≠ some 60 := by
  simp only [Line.wellFormed, Bool.and_eq_true, Bool.not_eq_true', bne_iff_ne, ne_eq] at h
  refine ⟨?_, h.2⟩
  have := h.1.2
  simpa using this

theorem Line.wellFormed_tag {ln : Line} {ds : List Nat} (h : ln.wellFormed = true)
    (ht : ln.tag = some ds) : ds ≠ [] ∧ ∀ d ∈ ds, isdigit d = true := by
  simp only [Line.wellFormed, ht, Bool.and_eq_true, Bool.not_eq_true', bne_iff_ne, ne_eq] at h
  have h1 := h.1.1
  constructor
  · intro he; simp [he] at h1
  · have h2 := h1.2
    simpa [List.all_eq_true] using h2

theorem scanL_line (con : Bool) (tail : List Nat) (ln : Line) (more : List Nat) (lv col : Int)
    (hw : ln.wellFormed = true) (hf : con = true → ln.fitsInt = true) :
    ∃ lv2, scanL con tail 10 lv col (ln.raw ++ more) =
      ((scanL con tail 10 lv2 (colorAfter con col [ln]) more).1,
        ln.calls con ++ (scanL con tail 10 lv2 (colorAfter con col [ln]) more).2) := by
  obtain ⟨hb10, hb60⟩ := Line.wellFormed_body hw
  obtain ⟨tag, body⟩ := ln
  cases tag with
  | none =>
    refine ⟨lv, ?_⟩
    simp only at hb10 hb60
    have hcol : colorAfter con col [⟨none, body⟩] = col := by
      cases con <;> simp [colorAfter, Line.color]
    have hcalls : Line.calls con ⟨none, body⟩ = body.map Emit.putchar ++ [Emit.putchar 10] := by
      cases con <;> simp [Line.calls, Line.color]
    simp only [Line.raw, List.nil_append, List.append_assoc, List.singleton_append, hcol, hcalls]
    rw [scanL_copy con tail lv col more body 10 hb10 (by simp [hb60])]
  | some ds =>
    obtain ⟨hne, hds⟩ := Line.wellFormed_tag hw rfl
    simp only at hb10 hb60
    have h62 : ∀ d ∈ ds, d ≠ 62 := by
      intro d hd
      have := hds d hd
      simp only [isdigit, Bool.and_eq_true, decide_eq_true_eq] at this
      omega
    have hraw : Line.raw ⟨some ds, body⟩ ++ more = 60 :: (ds ++ 62 :: (body ++ 10 :: more)) := by
      simp [Line.raw]
    have hdrop := dropTag_tag ds (body ++ 10 :: more) h62
    rw [hraw, scanL_cons]
    cases con with
    | false =>
      refine ⟨lv, ?_⟩
      simp only [and_self, if_true, Bool.false_eq_true, if_false, hdrop]
      rw [scanL_copy false tail lv col more body 10 hb10 (by simp [hb60])]
      simp [Line.calls, colorAfter]
    | true =>
      refine ⟨(digitsVal ds : Int), ?_⟩
      have hfit : digitsVal ds < 2 ^ 31 := by simpa [Line.fitsInt] using hf rfl
      have hsc : sscanf_d (ds ++ 62 :: (body ++ 10 :: more) ++ tail) = some (digitsVal ds : Int) := by
        rw [List.append_assoc, List.cons_append]
        exact sscanf_d_digits ds 62 _ hne hds (by decide) hfit
      simp only [and_self, if_true, hsc, hdrop]
      rw [scanL_copy true tail _ _ more body 10 hb10 (by simp [hb60])]
      simp [Line.calls, colorAfter, Line.color]

theorem colorAfter_cons (con : Bool) (k : Int) (ln : Line) (lines : List Line) :
    colorAfter con k (ln :: lines) = colorAfter con (colorAfter con k [ln]) lines := by
  cases con <;> simp [colorAfter]

theorem scanL_lines (con : Bool) (tail : List Nat) :
    ∀ (lines : List Line) (lv col : Int),
      (∀ ln ∈ lines, ln.wellFormed = true ∧ (con = true → ln.fitsInt = true)) →
      ∃ lv2, scanL con tail 10 lv col (linesRaw lines) =
        ((10, lv2, colorAfter con col lines), lines.flatMap (Line.calls con)) := by
  intro lines
  induction lines with
  | nil =>
    intro lv col _
    refine ⟨lv, ?_⟩
    have : colorAfter con col [] = col := by cases con <;> simp [colorAfter]
    simp [linesRaw, scanL_nil, this]
  | cons ln rest ih =>
    intro lv col h
    obtain ⟨hw, hf⟩ := h ln (by simp)
    obtain ⟨lv1, h1⟩ := scanL_line con tail ln (linesRaw rest) lv col hw hf
    obtain ⟨lv2, h2⟩ := ih lv1 (colorAfter con col [ln]) (fun l hl => h l (by simp [hl]))
    refine ⟨lv2, ?_⟩
    have hraw : linesRaw (ln :: rest) = ln.raw ++ linesRaw rest := by
      simp [linesRaw]
    rw [hraw, h1, h2, colorAfter_cons con col ln rest]
    simp

theorem linesRaw_ne_nil {lines : List Line} (h : lines ≠ []) : linesRaw lines ≠ [] := by
  cases lines with
  | nil => exact absurd rfl h
  | cons ln rest => simp [linesRaw, Line.raw]

theorem render_calls_false (lines : List Line) :
    render (lines.flatMap (Line.calls false)) = linesText lines := by
  induction lines with
  | nil => rfl
  | cons ln rest ih =>
    have h1 : Line.calls false ln = (ln.body ++ [10]).map Emit.putchar := by
      simp [Line.calls]
    simp only [List.flatMap_cons, render_append, ih, linesText, h1, render_putchars]

theorem render_calls_true (lines : List Line) :
    render (lines.flatMap (Line.calls true)) = lines.flatMap Line.colored := by
  induction lines with
  | nil => rfl
  | cons ln rest ih =>
    have h1 : render (Line.calls true ln) = ln.colored := by
      rcases hc : ln.color with _ | k
      · simp only [Line.calls, hc, Line.colored, List.nil_append]
        rw [show ln.body.map Emit.putchar ++ [Emit.putchar 10] = (ln.body ++ [10]).map Emit.putchar by simp,
          render_putchars]
      · simp only [Line.calls, hc, Line.colored, List.append_assoc, render_append, render_putchars]
        simp [render, Emit.bytes]
    simp only [List.flatMap_cons, render_append, ih, h1]

/-! ## Invariants of the scan -/

theorem lastFrom_putchar (d c : Nat) (es : List Emit) :
    lastFrom d (Emit.putchar c :: es) = lastFrom c es := by
  cases es with
  | nil => simp [lastFrom]
  | cons e t =>
    cases h : (e :: t).getLast? with
    | none => simp at h
    | some x => cases x <;> simp [lastFrom, List.getLast?_cons_cons, h]

theorem lastFrom_set_color (d : Nat) (k : Int) (es : List Emit) :
    lastFrom d (Emit.set_color k :: es) = lastFrom 10 es := by
  cases es with
  | nil => simp [lastFrom]
  | cons e t =>
    cases h : (e :: t).getLast? with
    | none => simp at h
    | some x => cases x <;> simp [lastFrom, List.getLast?_cons_cons, h]

/-- The final `last` is determined by the output calls. -/
theorem scanM_last (con : Bool) (tail : List Nat) :
    ∀ (l : List Nat) (f : Bool) (last : Nat) (lv col : Int),
      (scanM con tail f last lv col l).1.1 = lastFrom last (scanM con tail f last lv col l).2 := by
  intro l
  induction l with
  | nil => intro f last lv col; cases f <;> simp [scanM, lastFrom]
  | cons c t ih =>
    intro f last lv col
    cases f with
    | true =>
      by_cases hc : c = 62
      · simp only [scanM, hc, if_true]; exact ih _ _ _ _
      · simp only [scanM, hc, if_false]; exact ih _ _ _ _
    | false =>
      by_cases hc : last = 10 ∧ c = 60
      · cases con with
        | true =>
          simp only [scanM, hc, and_self, if_true, lastFrom_set_color]
          exact ih _ _ _ _
        | false =>
          simp only [scanM, hc, and_self, if_true, Bool.false_eq_true, if_false]
          exact ih _ _ _ _
      · simp only [scanM, hc, if_false, lastFrom_putchar]
        exact ih _ _ _ _

/-- The final `color` is the colour of the last `set_color` call. -/
theorem scanM_color (con : Bool) (tail : List Nat) :
    ∀ (l : List Nat) (f : Bool) (last : Nat) (lv col : Int),
      (scanM con tail f last lv col l).1.2.2
        = lastColor col (scanM con tail f last lv col l).2 := by
  intro l
  induction l with
  | nil => intro f last lv col; cases f <;> simp [scanM, lastColor]
  | cons c t ih =>
    intro f last lv col
    cases f with
    | true =>
      by_cases hc : c = 62
      · simp only [scanM, hc, if_true]; exact ih _ _ _ _
      · simp only [scanM, hc, if_false]; exact ih _ _ _ _
    | false =>
      by_cases hc : last = 10 ∧ c = 60
      · cases con with
        | true =>
          simp only [scanM, hc, and_self, if_true, lastColor]
          exact ih _ _ _ _
        | false =>
          simp only [scanM, hc, and_self, if_true, Bool.false_eq_true, if_false]
          exact ih _ _ _ _
      · simp only [scanM, hc, if_false, lastColor]
        exact ih _ _ _ _

/-- A final `last` other than the newline is the last byte of the input. -/
theorem scanM_last_byte (con : Bool) (tail : List Nat) :
    ∀ (l : List Nat) (f : Bool) (last : Nat) (lv col : Int),
      (f = true → last = 10) → (scanM con tail f last lv col l).1.1 ≠ 10 →
      (l = [] ∧ (scanM con tail f last lv col l).1.1 = last) ∨
        l.getLast? = some (scanM con tail f last lv col l).1.1 := by
  intro l
  induction l with
  | nil => intro f last lv col _ _; cases f <;> simp [scanM]
  | cons c t ih =>
    intro f last lv col hf hne
    right
    have key : ∀ (f2 : Bool) (last2 : Nat) (lv2 col2 : Int),
        (f2 = true → last2 = 10) → (t = [] → last2 = c ∨ last2 = 10) →
        (scanM con tail f2 last2 lv2 col2 t).1.1 ≠ 10 →
        (c :: t).getLast? = some (scanM con tail f2 last2 lv2 col2 t).1.1 := by
      intro f2 last2 lv2 col2 h1 h2 h3
      rcases ih f2 last2 lv2 col2 h1 h3 with ⟨ht, he⟩ | h
      · rcases h2 ht with h4 | h4
        · rw [he, h4, ht]; rfl
        · exact absurd (he.trans h4) h3
      · cases t with
        | nil => simp at h
        | cons x xs => rw [List.getLast?_cons_cons]; exact h
    cases f with
    | true =>
      have hl : last = 10 := hf rfl
      by_cases hc : c = 62
      · subst hc
        simp only [scanM, if_true] at hne ⊢
        exact key _ _ _ _ (by simp) (fun _ => Or.inr hl) hne
      · simp only [scanM, hc, if_false] at hne ⊢
        exact key _ _ _ _ (fun _ => hl) (fun _ => Or.inr hl) hne
    | false =>
      by_cases hc : last = 10 ∧ c = 60
      · obtain ⟨hc1, hc2⟩ := hc
        subst hc2
        cases con with
        | true =>
          simp only [scanM, hc1, and_self, if_true] at hne ⊢
          exact key true 10 _ _ (fun _ => rfl) (fun _ => Or.inr rfl) hne
        | false =>
          simp only [scanM, hc1, and_self, if_true, Bool.false_eq_true, if_false] at hne ⊢
          exact key true 10 _ _ (fun _ => rfl) (fun _ => Or.inr rfl) hne
      · simp only [scanM, hc, if_false] at hne ⊢
        exact key false c _ _ (by simp) (fun _ => Or.inl rfl) hne

theorem endsInText_iff (calls : List Emit) :
    endsInText calls = true ↔ lastFrom 10 calls ≠ 10 := by
  unfold endsInText lastFrom
  cases h : calls.getLast? with
  | none => simp
  | some x => cases x <;> simp

theorem endsInText_last {calls : List Emit} (h : endsInText calls = true) :
    calls.getLast? = some (Emit.putchar (lastFrom 10 calls)) := by
  unfold endsInText at h
  unfold lastFrom
  cases hx : calls.getLast? with
  | none => simp [hx] at h
  | some x => cases x <;> simp [hx] at h ⊢

/-- Without colour the scan only calls `putchar`, never for a `<` at the
start of a line, and leaves `color` alone. -/
theorem scanM_nocolor (tail : List Nat) :
    ∀ (l : List Nat) (f : Bool) (last : Nat) (lv col : Int),
      ∃ out, (scanM false tail f last lv col l).2 = out.map Emit.putchar ∧
        noLtAtLineStart last out = true ∧
        (scanM false tail f last lv col l).1.1 = lastOr last out ∧
        (scanM false tail f last lv col l).1.2.2 = col := by
  intro l
  induction l with
  | nil => intro f last lv col; exact ⟨[], by cases f <;> simp [scanM, noLtAtLineStart, lastOr]⟩
  | cons c t ih =>
    intro f last lv col
    cases f with
    | true =>
      by_cases hc : c = 62
      · simp only [scanM, hc, if_true]; exact ih _ _ _ _
      · simp only [scanM, hc, if_false]; exact ih _ _ _ _
    | false =>
      by_cases hc : last = 10 ∧ c = 60
      · simp only [scanM, hc, and_self, if_true, Bool.false_eq_true, if_false]
        exact ih true 10 lv col
      · obtain ⟨out, h1, h2, h3, h4⟩ := ih false c lv col
        refine ⟨c :: out, ?_⟩
        simp only [scanM, hc, if_false, h1, h3, h4, List.map_cons, noLtAtLineStart, h2, lastOr,
          Bool.and_true, and_true, true_and]
        by_cases hl : last = 10
        · have : c ≠ 60 := fun e => hc ⟨hl, e⟩
          simp [hl, this]
        · simp [hl]

/-- A buffer without `<` at the start of a line is copied byte by byte. -/
theorem scanL_noLt (con : Bool) (tail : List Nat) (lv col : Int) :
    ∀ (l : List Nat) (last : Nat), noLtAtLineStart last l = true →
      scanL con tail last lv col l = ((lastOr last l, lv, col), l.map Emit.putchar) := by
  intro l
  induction l with
  | nil => intro last _; simp [scanL_nil, lastOr]
  | cons c t ih =>
    intro last h
    simp only [noLtAtLineStart, Bool.and_eq_true, Bool.not_eq_true', Bool.and_eq_false_iff,
      beq_eq_false_iff_ne, ne_eq] at h
    have hc : ¬(last = 10 ∧ c = 60) := by
      rintro ⟨h1, h2⟩; rcases h.1 with h3 | h3 <;> contradiction
    rw [scanL_cons, if_neg hc, ih c h.2]
    simp [lastOr]

theorem dropTag_no_gt (t : List Nat) (h : 62 ∉ t) : dropTag t = [] := by
  induction t with
  | nil => rfl
  | cons d r ih =>
    have hd : d ≠ 62 := fun e => h (by simp [e])
    simp only [dropTag, hd, if_false]
    exact ih (fun e => h (by simp [e]))

theorem lastOr_eq (d : Nat) (l : List Nat) : lastOr d l = l.getLast?.getD d := by
  induction l generalizing d with
  | nil => rfl
  | cons c t ih =>
    rw [lastOr, ih]
    cases t with
    | nil => rfl
    | cons x xs =>
      rw [List.getLast?_cons_cons]
      cases h : (x :: xs).getLast? with
      | none => simp at h
      | some y => rfl

theorem lastFrom_putchars (d : Nat) (out : List Nat) :
    lastFrom d (out.map Emit.putchar) = lastOr d out := by
  induction out generalizing d with
  | nil => rfl
  | cons c t ih => rw [List.map_cons, lastFrom_putchar, lastOr, ih]

/-! ## Claims -/

/-- C1: in pretty mode without colour, for a non-empty buffer made of
well-formed lines (an optional tag of one or more digits between `<` and
`>`, a body without newline that does not start with `<`, a newline), the
output is the bodies, each followed by its newline: every tag is removed,
every other byte is kept in order and no newline is added. -/
theorem tag_stripping_well_formed (cfg : Config) (opts : Nat) (lines : List Line)
    (tail : List Nat) (level0 : Int)
    (hmode : PrettyNoColor cfg opts) (hne : lines ≠ [])
    (hwf : ∀ ln ∈ lines, ln.wellFormed = true) :
    format cfg opts (linesRaw lines) tail level0 = linesText lines := by
  obtain ⟨hp, hc⟩ := prettyNoColor_branch hmode
  obtain ⟨lv2, h⟩ := scanL_lines false tail lines level0 0
    (fun ln hl => ⟨hwf ln hl, fun hcon => by simp at hcon⟩)
  unfold format
  rw [formatCalls_pretty cfg opts _ tail level0 (linesRaw_ne_nil hne) hp, hc, h]
  simp [colorAfter, render_append, render_calls_false, render]

theorem tag_stripping_well_formed_witness :
    PrettyNoColor ⟨true, true⟩ 0 ∧ scenarioLines ≠ [] ∧
    (∀ ln ∈ scenarioLines, ln.wellFormed = true) ∧
    format ⟨true, true⟩ 0 (bytes "<5>kernel start\nno tag here\n<3>panic: x\n") [] 0
      = bytes "kernel start\nno tag here\npanic: x\n" :=
  ⟨by decide, by decide, by decide,
    tag_stripping_well_formed ⟨true, true⟩ 0 scenarioLines [] 0
      (by decide) (by decide) (by decide)⟩

theorem rawMode_branch {cfg : Config} {opts : Nat} (h : RawMode cfg opts) :
    prettyBranch cfg opts = false := by
  rcases h with h | ⟨h1, h2⟩
  · simp [prettyBranch, h]
  · simp [prettyBranch, h1, h2]

/-- C5: in raw mode (`-r` given, whatever `-C` is, or neither pretty
printing built in nor `-C` given), for every non-empty buffer the output is
the buffer, followed by one newline exactly when the last byte of the
buffer is not a newline; the only output calls are the write of the whole
buffer and possibly that `putchar`, so no tag is stripped and no escape
sequence, the final colour reset included, is written. -/
theorem raw_output (cfg : Config) (opts : Nat) (buf tail : List Nat) (level0 : Int)
    (hmode : RawMode cfg opts) (hb : buf ≠ []) :
    format cfg opts buf tail level0 = buf ++ (if buf.getLast? = some 10 then [] else [10]) ∧
    formatCalls cfg opts buf tail level0 =
      Emit.full_write buf :: (if buf.getLast? = some 10 then [] else [Emit.putchar 10]) ∧
    ∀ k, Emit.set_color k ∉ formatCalls cfg opts buf tail level0 := by
  have h := formatCalls_raw cfg opts buf tail level0 hb (rawMode_branch hmode)
  refine ⟨?_, by simpa using h, ?_⟩
  · unfold format
    rw [h]
    by_cases hl : buf.getLast? = some 10 <;> simp [hl, render, Emit.bytes]
  · intro k
    rw [h]
    by_cases hl : buf.getLast? = some 10 <;> simp [hl]

theorem raw_output_witness :
    RawMode ⟨true, true⟩ (OPT_r + OPT_C) ∧ bytes "<3>a\n<x>b" ≠ [] ∧
    format ⟨true, true⟩ (OPT_r + OPT_C) (bytes "<3>a\n<x>b") [] 0 = bytes "<3>a\n<x>b\n" :=
  ⟨by decide, by decide,
    (raw_output ⟨true, true⟩ (OPT_r + OPT_C) (bytes "<3>a\n<x>b") [] 0 (by decide) (by decide)).1⟩

/-- C6: the colour chosen for a severity is Red (91) for 1, 2 and 3, Orange
(33) for 4, Yellow (93) for 5, White (97) for 7 and Default (0) for every
other integer; `set_color c` writes ESC, `[`, the decimal digits of `c`
and `m`, which for the five colours gives the five sequences listed. -/
theorem color_table :
    (∀ level : Int, colorOfLevel level =
      if level = 1 ∨ level = 2 ∨ level = 3 then 91
      else if level = 4 then 33
      else if level = 5 then 93
      else if level = 7 then 97
      else 0) ∧
    COLOR_RED = 91 ∧ COLOR_ORANGE = 33 ∧ COLOR_YELLOW = 93 ∧ COLOR_WHITE = 97 ∧
    COLOR_DEFAULT = 0 ∧
    (∀ c : Int, set_color c = [27, 91] ++ decimal c ++ [109]) ∧
    set_color COLOR_RED = bytes "\x1b[91m" ∧
    set_color COLOR_ORANGE = bytes "\x1b[33m" ∧
    set_color COLOR_YELLOW = bytes "\x1b[93m" ∧
    set_color COLOR_WHITE = bytes "\x1b[97m" ∧
    set_color COLOR_DEFAULT = bytes "\x1b[0m" := by
  refine ⟨?_, rfl, rfl, rfl, rfl, rfl, fun c => rfl, by decide, by decide, by decide,
    by decide, by decide⟩
  intro level
  unfold colorOfLevel COLOR_RED COLOR_ORANGE COLOR_YELLOW COLOR_WHITE COLOR_DEFAULT
  by_cases h1 : level = 1
  · simp [h1]
  by_cases h2 : level = 2
  · simp [h2]
  by_cases h3 : level = 3
  · simp [h3]
  simp [h1, h2, h3]

/-- C7: in colour mode, for a non-empty buffer made of well-formed lines
whose tag values fit an `int`, the output is, line by line, the escape
sequence of the colour of the tag (nothing for an untagged line), the body
and the newline, so the tag text is never written; after the last newline
comes ESC[0m exactly when the last tagged line has a colour other than
Default. -/
theorem color_placement_well_formed (cfg : Config) (opts : Nat) (lines : List Line)
    (tail : List Nat) (level0 : Int)
    (hmode : ColorMode cfg opts) (hne : lines ≠ [])
    (hwf : ∀ ln ∈ lines, ln.wellFormed = true ∧ ln.fitsInt = true) :
    format cfg opts (linesRaw lines) tail level0 =
      lines.flatMap Line.colored ++
        (if lastTagColor lines ≠ COLOR_DEFAULT then set_color COLOR_DEFAULT else []) := by
  obtain ⟨hp, hc⟩ := colorMode_branch hmode
  obtain ⟨lv2, h⟩ := scanL_lines true tail lines level0 0
    (fun ln hl => ⟨(hwf ln hl).1, fun _ => (hwf ln hl).2⟩)
  unfold format
  rw [formatCalls_pretty cfg opts _ tail level0 (linesRaw_ne_nil hne) hp, hc, h]
  have hk : colorAfter true 0 lines = lastTagColor lines := by
    simp [colorAfter, lastTagColor, COLOR_DEFAULT]
  simp only [hk, ne_eq, not_true_eq_false, if_false, List.append_nil, render_append,
    render_calls_true, COLOR_DEFAULT]
  by_cases h0 : lastTagColor lines = 0 <;> simp [h0, render, Emit.bytes]

theorem color_placement_well_formed_witness :
    ColorMode ⟨true, true⟩ OPT_C ∧ scenarioLines ≠ [] ∧
    (∀ ln ∈ scenarioLines, ln.wellFormed = true ∧ ln.fitsInt = true) ∧
    format ⟨true, true⟩ OPT_C (bytes "<5>kernel start\nno tag here\n<3>panic: x\n") [] 0
      = bytes "\x1b[93mkernel start\nno tag here\n\x1b[91mpanic: x\n\x1b[0m" :=
  ⟨by decide, by decide, by decide,
    color_placement_well_formed ⟨true, true⟩ OPT_C scenarioLines [] 0
      (by decide) (by decide) (by decide)⟩

/-- The output of pretty mode without colour, for a non-empty buffer: the
bytes the scan copies, none of them a `<` at the start of a line, and a
newline if the last of them is not one. -/
theorem format_nocolor (cfg : Config) (opts : Nat) (buf tail : List Nat) (level0 : Int)
    (hmode : PrettyNoColor cfg opts) (hb : buf ≠ []) :
    ∃ out, scanCalls cfg opts buf tail level0 = out.map Emit.putchar ∧
      noLtAtLineStart 10 out = true ∧
      (scanL false tail 10 level0 0 buf).1.1 = lastOr 10 out ∧
      format cfg opts buf tail level0 = out ++ (if lastOr 10 out ≠ 10 then [10] else []) := by
  obtain ⟨hp, hc⟩ := prettyNoColor_branch hmode
  obtain ⟨out, h1, h2, h3, h4⟩ := scanM_nocolor tail buf false 10 level0 0
  refine ⟨out, ?_, h2, h3, ?_⟩
  · rw [scanCalls_eq cfg opts buf tail level0 hb, hc]; exact h1
  · unfold format
    rw [formatCalls_pretty cfg opts buf tail level0 hb hp, hc]
    unfold scanL
    rw [h1, h3, h4]
    by_cases hl : lastOr 10 out = 10 <;> simp [hl, render_append, render_putchars, render, Emit.bytes]

/-- The formatter in the scanning branch: the output calls of the scan, a
newline when the last of them is a `putchar` of another byte, the reset
when `color` is not 0 after the scan. -/
theorem formatCalls_scan (cfg : Config) (opts : Nat) (buf tail : List Nat) (level0 : Int)
    (hp : prettyBranch cfg opts = true) (hb : buf ≠ []) :
    formatCalls cfg opts buf tail level0 =
      scanCalls cfg opts buf tail level0
        ++ (if endsInText (scanCalls cfg opts buf tail level0) then [Emit.putchar 10] else [])
        ++ (if (scanRun cfg opts buf tail level0).1.color ≠ 0 then [Emit.set_color 0] else []) := by
  have hcalls := scanCalls_eq cfg opts buf tail level0 hb
  have hfin : (scanL (colorOn cfg opts) tail 10 level0 0 buf).1.1
      = lastFrom 10 (scanCalls cfg opts buf tail level0) := by
    rw [hcalls]; exact scanM_last (colorOn cfg opts) tail buf false 10 level0 0
  rw [formatCalls_pretty cfg opts buf tail level0 hb hp, hfin, ← hcalls,
    scanRun_eq cfg opts buf tail level0 hb]
  by_cases he : endsInText (scanCalls cfg opts buf tail level0) = true
  · have := (endsInText_iff _).mp he
    simp [he, this]
  · have : ¬ lastFrom 10 (scanCalls cfg opts buf tail level0) ≠ 10 :=
      fun h => he ((endsInText_iff _).mpr h)
    simp [he, this]

/-- Pretty mode without colour and raw mode write the same bytes for a
non-empty buffer in which no line starts with `<`. -/
theorem pretty_eq_raw_of_noLt (cfg cfg2 : Config) (opts opts2 : Nat)
    (buf tail tail2 : List Nat) (level0 level2 : Int)
    (hmode : PrettyNoColor cfg opts) (hraw : RawMode cfg2 opts2) (hb : buf ≠ [])
    (h : noLtAtLineStart 10 buf = true) :
    format cfg opts buf tail level0 = format cfg2 opts2 buf tail2 level2 := by
  obtain ⟨hp, hc⟩ := prettyNoColor_branch hmode
  unfold format
  rw [formatCalls_pretty cfg opts buf tail level0 hb hp, hc, scanL_noLt false tail level0 0 buf 10 h,
    formatCalls_raw cfg2 opts2 buf tail2 level2 hb (rawMode_branch hraw), lastOr_eq]
  cases hg : buf.getLast? with
  | none => exact absurd (List.getLast?_eq_none_iff.mp hg) hb
  | some y =>
    by_cases hy : y = 10 <;>
      simp [hy, render_append, render_putchars, render, Emit.bytes]

theorem untagged_line_is_stripped :
    noTaggedLine 10 (bytes "<x>a\n") = true ∧
    PrettyNoColor ⟨true, true⟩ 0 ∧ RawMode ⟨true, true⟩ OPT_r ∧
    format ⟨true, true⟩ 0 (bytes "<x>a\n") [] 0 = bytes "a\n" ∧
    format ⟨true, true⟩ OPT_r (bytes "<x>a\n") [] 0 = bytes "<x>a\n" ∧
    format ⟨true, true⟩ 0 (bytes "<x>a\n") [] 0
      ≠ format ⟨true, true⟩ OPT_r (bytes "<x>a\n") [] 0 := by
  decide

/-- C2, amended: for every non-empty buffer in which no line (at the start
of the buffer or right after a newline) begins with `<`, the output of
pretty mode without colour equals the output of raw mode: the scan copies
every byte of the buffer, and both modes add one newline exactly when the
last byte of the buffer is not a newline. -/
theorem pretty_raw_agree_without_lt (cfg cfg2 : Config) (opts opts2 : Nat)
    (buf tail tail2 : List Nat) (level0 level2 : Int)
    (hmode : PrettyNoColor cfg opts) (hraw : RawMode cfg2 opts2) (hb : buf ≠ [])
    (h : noLtAtLineStart 10 buf = true) :
    format cfg opts buf tail level0 = format cfg2 opts2 buf tail2 level2 ∧
    scanOutput cfg opts buf tail level0 = buf ∧
    format cfg opts buf tail level0 = buf ++ (if buf.getLast? = some 10 then [] else [10]) := by
  obtain ⟨hp, hc⟩ := prettyNoColor_branch hmode
  have heq := pretty_eq_raw_of_noLt cfg cfg2 opts opts2 buf tail tail2 level0 level2 hmode hraw hb h
  refine ⟨heq, ?_, ?_⟩
  · unfold scanOutput
    rw [scanCalls_eq cfg opts buf tail level0 hb, hc, scanL_noLt false tail level0 0 buf 10 h,
      render_putchars]
  · rw [heq]
    unfold format
    rw [formatCalls_raw cfg2 opts2 buf tail2 level2 hb (rawMode_branch hraw)]
    by_cases hl : buf.getLast? = some 10 <;> simp [hl, render, Emit.bytes]

theorem pretty_raw_agree_without_lt_witness :
    PrettyNoColor ⟨true, true⟩ 0 ∧ RawMode ⟨true, true⟩ OPT_r ∧ bytes "a<5>b\nx <y>" ≠ [] ∧
    noLtAtLineStart 10 (bytes "a<5>b\nx <y>") = true ∧
    format ⟨true, true⟩ 0 (bytes "a<5>b\nx <y>") [] 0
      = format ⟨true, true⟩ OPT_r (bytes "a<5>b\nx <y>") [] 0 ∧
    format ⟨true, true⟩ 0 (bytes "a<5>b\nx <y>") [] 0 = bytes "a<5>b\nx <y>\n" :=
  ⟨by decide, by decide, by decide, by decide,
    (pretty_raw_agree_without_lt ⟨true, true⟩ ⟨true, true⟩ 0 OPT_r (bytes "a<5>b\nx <y>") [] []
      0 0 (by decide) (by decide) (by decide) (by decide)).1,
    (pretty_raw_agree_without_lt ⟨true, true⟩ ⟨true, true⟩ 0 OPT_r (bytes "a<5>b\nx <y>") [] []
      0 0 (by decide) (by decide) (by decide) (by decide)).2.2⟩

theorem trailing_newline_counterexample :
    PrettyNoColor ⟨true, true⟩ 0 ∧
    (bytes "a\n<5>").getLast? ≠ some 10 ∧
    scanOutput ⟨true, true⟩ 0 (bytes "a\n<5>") [] 0 = bytes "a\n" ∧
    format ⟨true, true⟩ 0 (bytes "a\n<5>") [] 0 = bytes "a\n" ∧
    format ⟨true, true⟩ 0 (bytes "a\n<5>") [] 0
      ≠ scanOutput ⟨true, true⟩ 0 (bytes "a\n<5>") [] 0 ++ [10] := by
  decide

/-- C3, amended: in the scanning branch (with or without colour), for every
non-empty buffer, one newline is written after the output of the scan
exactly when the last output call of the scan is a `putchar` of a byte
other than the newline; this is never so when the last byte of the buffer
is a newline, and when the last byte of the buffer is another byte it is so
exactly when that byte is the last thing the scan wrote (it was copied, not
skipped as part of a tag).  Without colour the output is the scanned bytes,
followed by a newline exactly when they are not empty and do not end with
one. -/
theorem trailing_newline (cfg : Config) (opts : Nat) (buf tail : List Nat) (level0 : Int)
    (hp : prettyBranch cfg opts = true) (hb : buf ≠ []) :
    formatCalls cfg opts buf tail level0 =
      scanCalls cfg opts buf tail level0
        ++ (if endsInText (scanCalls cfg opts buf tail level0) then [Emit.putchar 10] else [])
        ++ (if (scanRun cfg opts buf tail level0).1.color ≠ 0 then [Emit.set_color 0] else []) ∧
    (buf.getLast? = some 10 → endsInText (scanCalls cfg opts buf tail level0) = false) ∧
    (∀ x, buf.getLast? = some x → x ≠ 10 →
      (endsInText (scanCalls cfg opts buf tail level0) = true ↔
        (scanCalls cfg opts buf tail level0).getLast? = some (Emit.putchar x))) ∧
    (PrettyNoColor cfg opts →
      format cfg opts buf tail level0 =
        scanOutput cfg opts buf tail level0 ++
          (if scanOutput cfg opts buf tail level0 = [] ∨
              (scanOutput cfg opts buf tail level0).getLast? = some 10 then [] else [10])) := by
  have hcalls := scanCalls_eq cfg opts buf tail level0 hb
  have hlast := scanM_last (colorOn cfg opts) tail buf false 10 level0 0
  have hbyte := scanM_last_byte (colorOn cfg opts) tail buf false 10 level0 0 (by simp)
  have hfin : (scanL (colorOn cfg opts) tail 10 level0 0 buf).1.1
      = lastFrom 10 (scanCalls cfg opts buf tail level0) := by
    rw [hcalls]; exact hlast
  have hbyte2 : lastFrom 10 (scanCalls cfg opts buf tail level0) ≠ 10 →
      buf.getLast? = some (lastFrom 10 (scanCalls cfg opts buf tail level0)) := by
    intro h
    rw [← hfin] at h ⊢
    rcases hbyte h with ⟨h1, _⟩ | h1
    · exact absurd h1 hb
    · exact h1
  refine ⟨formatCalls_scan cfg opts buf tail level0 hp hb, ?_, ?_, ?_⟩
  · intro h10
    by_contra he
    have he2 : endsInText (scanCalls cfg opts buf tail level0) = true := by simpa using he
    have hne := (endsInText_iff _).mp he2
    have := hbyte2 hne
    rw [h10] at this
    exact hne (Option.some.inj this).symm
  · intro x hx hx10
    constructor
    · intro he
      have hne := (endsInText_iff _).mp he
      have h1 := hbyte2 hne
      rw [hx] at h1
      rw [endsInText_last he, ← Option.some.inj h1]
    · intro h
      simp [endsInText, h, hx10]
  · intro hmode
    obtain ⟨out, h1, _, _, h4⟩ := format_nocolor cfg opts buf tail level0 hmode hb
    have hso : scanOutput cfg opts buf tail level0 = out := by
      unfold scanOutput; rw [h1, render_putchars]
    rw [h4, hso, lastOr_eq]
    cases hg : out.getLast? with
    | none =>
      have : out = [] := List.getLast?_eq_none_iff.mp hg
      simp [this]
    | some y =>
      have : out ≠ [] := fun e => by simp [e] at hg
      by_cases hy : y = 10 <;> simp [hy, this]

theorem trailing_newline_witness :
    prettyBranch ⟨true, true⟩ OPT_C = true ∧ bytes "<3>a" ≠ [] ∧
    formatCalls ⟨true, true⟩ OPT_C (bytes "<3>a") [] 0 =
      [Emit.set_color 91, Emit.putchar 97, Emit.putchar 10, Emit.set_color 0] :=
  ⟨by decide, by decide,
    (trailing_newline ⟨true, true⟩ OPT_C (bytes "<3>a") [] 0 (by decide) (by decide)).1⟩

theorem unterminated_tag_counterexample :
    PrettyNoColor ⟨true, true⟩ 0 ∧
    (bytes "<9unterminated rest of buffer").head? = some 60 ∧
    62 ∉ bytes "<9unterminated rest of buffer" ∧
    format ⟨true, true⟩ 0 (bytes "<9unterminated rest of buffer") [] 0 = [] ∧
    format ⟨true, true⟩ 0 (bytes "<9unterminated rest of buffer") [] 0 ≠ [10] := by
  decide

/-- C4, amended: in pretty mode without colour, for every buffer whose
first byte is `<` and that holds no `>`, the output is empty: all the bytes
are skipped as tag content and, nothing having been written, no newline is
written either. -/
theorem unterminated_tag (cfg : Config) (opts : Nat) (buf tail : List Nat) (level0 : Int)
    (hmode : PrettyNoColor cfg opts) (hlt : buf.head? = some 60) (hgt : 62 ∉ buf) :
    format cfg opts buf tail level0 = [] := by
  obtain ⟨hp, hc⟩ := prettyNoColor_branch hmode
  cases buf with
  | nil => simp at hlt
  | cons c t =>
    have hc60 : c = 60 := by simpa using hlt
    have ht : 62 ∉ t := fun h => hgt (by simp [h])
    unfold format
    rw [formatCalls_pretty cfg opts _ tail level0 (by simp) hp, hc, scanL_cons, hc60]
    simp [dropTag_no_gt t ht, scanL_nil, render]

theorem unterminated_tag_witness :
    PrettyNoColor ⟨true, true⟩ 0 ∧ (bytes "<9un\nterminated").head? = some 60 ∧
    62 ∉ bytes "<9un\nterminated" ∧
    format ⟨true, true⟩ 0 (bytes "<9un\nterminated") [] 0 = [] :=
  ⟨by decide, by decide, by decide,
    unterminated_tag ⟨true, true⟩ 0 (bytes "<9un\nterminated") [] 0
      (by decide) (by decide) (by decide)⟩

theorem color_reset_counterexample :
    ColorMode ⟨true, true⟩ OPT_C ∧
    Emit.set_color COLOR_RED ∈ scanCalls ⟨true, true⟩ OPT_C (bytes "<3>a\n<6>b\n") [] 0 ∧
    formatCalls ⟨true, true⟩ OPT_C (bytes "<3>a\n<6>b\n") [] 0 =
      [Emit.set_color 91, Emit.putchar 97, Emit.putchar 10,
        Emit.set_color 0, Emit.putchar 98, Emit.putchar 10] ∧
    (formatCalls ⟨true, true⟩ OPT_C (bytes "<3>a\n<6>b\n") [] 0).getLast?
      ≠ some (Emit.set_color 0) ∧
    format ⟨true, true⟩ OPT_C (bytes "<3>a\n<6>b\n") [] 0 = bytes "\x1b[91ma\n\x1b[0mb\n" := by
  decide

/-- C8, amended: in colour mode, for every non-empty buffer, the reset
ESC[0m is written once at the very end of the output, after the trailing
newline, exactly when the colour of the last `set_color` call of the scan
is not Default; it is not written at the end when no colour was activated
or when the last colour activated is Default. -/
theorem color_reset_rule (cfg : Config) (opts : Nat) (buf tail : List Nat) (level0 : Int)
    (hmode : ColorMode cfg opts) (hb : buf ≠ []) :
    formatCalls cfg opts buf tail level0 =
      scanCalls cfg opts buf tail level0
        ++ (if endsInText (scanCalls cfg opts buf tail level0) then [Emit.putchar 10] else [])
        ++ (if lastColor COLOR_DEFAULT (scanCalls cfg opts buf tail level0) ≠ COLOR_DEFAULT
              then [Emit.set_color COLOR_DEFAULT] else []) ∧
    format cfg opts buf tail level0 =
      scanOutput cfg opts buf tail level0
        ++ (if endsInText (scanCalls cfg opts buf tail level0) then [10] else [])
        ++ (if lastColor COLOR_DEFAULT (scanCalls cfg opts buf tail level0) ≠ COLOR_DEFAULT
              then set_color COLOR_DEFAULT else []) := by
  obtain ⟨hp, hc⟩ := colorMode_branch hmode
  have hcalls := scanCalls_eq cfg opts buf tail level0 hb
  have hcol := scanM_color (colorOn cfg opts) tail buf false 10 level0 0
  have hmain : formatCalls cfg opts buf tail level0 =
      scanCalls cfg opts buf tail level0
        ++ (if endsInText (scanCalls cfg opts buf tail level0) then [Emit.putchar 10] else [])
        ++ (if lastColor COLOR_DEFAULT (scanCalls cfg opts buf tail level0) ≠ COLOR_DEFAULT
              then [Emit.set_color COLOR_DEFAULT] else []) := by
    have h1 := formatCalls_scan cfg opts buf tail level0 hp hb
    rw [h1, scanRun_eq cfg opts buf tail level0 hb, hcalls]
    have : (scanL (colorOn cfg opts) tail 10 level0 0 buf).1.2.2
        = lastColor 0 (scanL (colorOn cfg opts) tail 10 level0 0 buf).2 := hcol
    simp only [this, COLOR_DEFAULT]
  refine ⟨hmain, ?_⟩
  unfold format scanOutput
  rw [hmain, render_append, render_append]
  congr 1
  · congr 1
    by_cases he : endsInText (scanCalls cfg opts buf tail level0) = true <;>
      simp [he, render, Emit.bytes]
  · by_cases hk : lastColor COLOR_DEFAULT (scanCalls cfg opts buf tail level0) = COLOR_DEFAULT <;>
      simp [hk, render, Emit.bytes]

theorem color_reset_rule_witness :
    ColorMode ⟨true, true⟩ OPT_C ∧ bytes "<6>a\n<3>b" ≠ [] ∧
    format ⟨true, true⟩ OPT_C (bytes "<6>a\n<3>b") [] 0 = bytes "\x1b[0ma\n\x1b[91mb\n\x1b[0m" :=
  ⟨by decide, by decide,
    (color_reset_rule ⟨true, true⟩ OPT_C (bytes "<6>a\n<3>b") [] 0 (by decide) (by decide)).2⟩

/-- C9, at the input `<3>a`, newline, `<x>b`, newline, in colour mode: the
bytes after the second `<` do not begin a decimal integer, `sscanf` stores
nothing, `level` is still 3 and the second line is written in Red, not in
Default.  When such a tag stands on the first line the colour is that of
the value `level` happened to hold at the start. -/
theorem malformed_tag_keeps_level :
    ColorMode ⟨true, true⟩ OPT_C ∧
    sscanf_d (bytes "x>b\n") = none ∧
    formatCalls ⟨true, true⟩ OPT_C (bytes "<3>a\n<x>b\n") [] 0 =
      [Emit.set_color COLOR_RED, Emit.putchar 97, Emit.putchar 10,
        Emit.set_color COLOR_RED, Emit.putchar 98, Emit.putchar 10,
        Emit.set_color COLOR_DEFAULT] ∧
    format ⟨true, true⟩ OPT_C (bytes "<3>a\n<x>b\n") [] 0
      = bytes "\x1b[91ma\n\x1b[91mb\n\x1b[0m" ∧
    (∀ level0 : Int, scanCalls ⟨true, true⟩ OPT_C (bytes "<x>b\n") [] level0 =
      [Emit.set_color (colorOfLevel level0), Emit.putchar 98, Emit.putchar 10]) := by
  refine ⟨by decide, by decide, by decide, by decide, ?_⟩
  intro level0
  rfl

theorem noLtAtLineStart_snoc_newline :
    ∀ (l : List Nat) (last : Nat), noLtAtLineStart last l = true →
      noLtAtLineStart last (l ++ [10]) = true := by
  intro l
  induction l with
  | nil => intro last _; simp [noLtAtLineStart]
  | cons c t ih =>
    intro last h
    simp only [noLtAtLineStart, Bool.and_eq_true] at h
    simp only [List.cons_append, noLtAtLineStart, Bool.and_eq_true]
    exact ⟨h.1, ih c h.2⟩

theorem lastOr_snoc (l : List Nat) (d x : Nat) : lastOr d (l ++ [x]) = x := by
  induction l generalizing d with
  | nil => rfl
  | cons c t ih => rw [List.cons_append, lastOr, ih]

/-- C10: in pretty mode without colour, for every non-empty buffer whose
output is not empty, formatting that output again gives the same output. -/
theorem strip_idempotent (cfg : Config) (opts : Nat) (b tail tail2 : List Nat)
    (level0 level2 : Int) (hmode : PrettyNoColor cfg opts) (hb : b ≠ [])
    (hout : format cfg opts b tail level0 ≠ []) :
    format cfg opts (format cfg opts b tail level0) tail2 level2 = format cfg opts b tail level0 := by
  obtain ⟨hp, hc⟩ := prettyNoColor_branch hmode
  obtain ⟨out, _, hno, _, hfmt⟩ := format_nocolor cfg opts b tail level0 hmode hb
  have hno2 : noLtAtLineStart 10 (format cfg opts b tail level0) = true := by
    rw [hfmt]
    by_cases hl : lastOr 10 out = 10
    · simp [hl, hno]
    · simp only [hl, ne_eq, not_false_eq_true, if_true]
      exact noLtAtLineStart_snoc_newline out 10 hno
  have hlast : lastOr 10 (format cfg opts b tail level0) = 10 := by
    rw [hfmt]
    by_cases hl : lastOr 10 out = 10
    · simp [hl]
    · simp only [hl, ne_eq, not_false_eq_true, if_true]
      exact lastOr_snoc out 10 10
  generalize format cfg opts b tail level0 = o at hout hno2 hlast
  unfold format
  rw [formatCalls_pretty cfg opts o tail2 level2 hout hp, hc,
    scanL_noLt false tail2 level2 0 o 10 hno2]
  simp [hlast, render_append, render_putchars, render]

theorem strip_idempotent_witness :
    PrettyNoColor ⟨true, true⟩ 0 ∧ bytes "<5><3>a<b\n<x\ny>c" ≠ [] ∧
    format ⟨true, true⟩ 0 (bytes "<5><3>a<b\n<x\ny>c") [] 0 = bytes "a<b\nc\n" ∧
    format ⟨true, true⟩ 0 (format ⟨true, true⟩ 0 (bytes "<5><3>a<b\n<x\ny>c") [] 0) [] 0
      = format ⟨true, true⟩ 0 (bytes "<5><3>a<b\n<x\ny>c") [] 0 :=
  ⟨by decide, by decide, by decide,
    strip_idempotent ⟨true, true⟩ 0 (bytes "<5><3>a<b\n<x\ny>c") [] [] 0 0
      (by decide) (by decide) (by decide)⟩

/-! ## The invocation -/

theorem readCapacity_explicit (k : Kernel) (opts : Nat) (len : Int) (hs : opts &&& OPT_s ≠ 0) :
    readCapacity k opts len = max 16384 (min len 16777216) := by
  unfold readCapacity
  simp only [hs, if_false]
  omega

theorem readCapacity_query (k : Kernel) (opts : Nat) (len : Int) (hs : opts &&& OPT_s = 0) :
    readCapacity k opts len = max 16384 (min k.size 16777216) := by
  unfold readCapacity
  simp only [hs, if_true]
  omega

theorem dmesg_main_syscalls_read (cfg : Config) (k : Kernel) (opts : Nat) (len level : Int)
    (hn : opts &&& OPT_n = 0) :
    (dmesg_main cfg k opts len level).syscalls =
      (if opts &&& OPT_s = 0 then [(10, 0)] else [])
        ++ [(3 + (opts &&& OPT_c), readCapacity k opts len)] := by
  unfold dmesg_main
  simp only [hn, ne_eq, not_true_eq_false, if_false]
  split
  · rfl
  · split <;> rfl

/-- C11: when `-n` is given, whatever the other options are, the invocation
makes exactly one `klogctl` call, the request 8 with the level, so no size
query and no read (with or without clearing); it writes nothing to the
output and returns `EXIT_SUCCESS` when the request returns 0. -/
theorem level_set_short_circuit (cfg : Config) (k : Kernel) (opts : Nat) (len level : Int)
    (hn : opts &&& OPT_n ≠ 0) :
    (dmesg_main cfg k opts len level).syscalls = [(8, level)] ∧
    (dmesg_main cfg k opts len level).out = [] ∧
    (k.setLevel level = 0 →
      (dmesg_main cfg k opts len level).outcome = Outcome.returned EXIT_SUCCESS ∧
      (dmesg_main cfg k opts len level).outcome.status = 0) := by
  unfold dmesg_main
  simp only [hn, ne_eq, not_false_eq_true, if_true]
  by_cases h : k.setLevel level = 0
  · simp [h, Outcome.status, EXIT_SUCCESS]
  · simp [h]

theorem level_set_short_circuit_witness :
    (OPT_c + OPT_s + OPT_n + OPT_r + OPT_C) &&& OPT_n ≠ 0 ∧
    (dmesg_main ⟨true, true⟩ (kernelOf 0 65536 3 (bytes "<3>"))
      (OPT_c + OPT_s + OPT_n + OPT_r + OPT_C) 4096 7).syscalls = [(8, 7)] ∧
    (dmesg_main ⟨true, true⟩ (kernelOf 0 65536 3 (bytes "<3>"))
      (OPT_c + OPT_s + OPT_n + OPT_r + OPT_C) 4096 7).out = [] ∧
    (dmesg_main ⟨true, true⟩ (kernelOf 0 65536 3 (bytes "<3>"))
      (OPT_c + OPT_s + OPT_n + OPT_r + OPT_C) 4096 7).outcome = Outcome.returned EXIT_SUCCESS :=
  ⟨by decide,
    (level_set_short_circuit ⟨true, true⟩ (kernelOf 0 65536 3 (bytes "<3>"))
      (OPT_c + OPT_s + OPT_n + OPT_r + OPT_C) 4096 7 (by decide)).1,
    (level_set_short_circuit ⟨true, true⟩ (kernelOf 0 65536 3 (bytes "<3>"))
      (OPT_c + OPT_s + OPT_n + OPT_r + OPT_C) 4096 7 (by decide)).2.1,
    ((level_set_short_circuit ⟨true, true⟩ (kernelOf 0 65536 3 (bytes "<3>"))
      (OPT_c + OPT_s + OPT_n + OPT_r + OPT_C) 4096 7 (by decide)).2.2 rfl).1⟩

/-- C12: when `-s` is given with the size `s` (and `-n` is not), the only
`klogctl` call is the read, and the length passed to it is
`max(16384, min(s, 16777216))`: 16384 for a smaller `s`, 16777216 for a
larger one, `s` itself in between. -/
theorem size_clamp (cfg : Config) (k : Kernel) (opts : Nat) (s level : Int)
    (hn : opts &&& OPT_n = 0) (hs : opts &&& OPT_s ≠ 0) :
    (dmesg_main cfg k opts s level).syscalls =
      [(3 + (opts &&& OPT_c), max 16384 (min s 16777216))] ∧
    readCapacity k opts s = max 16384 (min s 16777216) ∧
    readCapacity k opts s =
      (if s < 16384 then 16384 else if 16777216 < s then 16777216 else s) := by
  have h := readCapacity_explicit k opts s hs
  refine ⟨?_, h, ?_⟩
  · rw [dmesg_main_syscalls_read cfg k opts s level hn, h]
    simp [hs]
  · rw [h]
    split
    · omega
    · split <;> omega

theorem size_clamp_witness :
    OPT_s &&& OPT_n = 0 ∧ OPT_s &&& OPT_s ≠ 0 ∧
    (dmesg_main ⟨true, true⟩ (kernelOf 0 65536 2 (bytes "a\n")) OPT_s 100 0).syscalls
      = [(3, 16384)] :=
  ⟨by decide, by decide,
    (size_clamp ⟨true, true⟩ (kernelOf 0 65536 2 (bytes "a\n")) OPT_s 100 0
      (by decide) (by decide)).1⟩

theorem queried_size_counterexample :
    (0 : Nat) &&& OPT_n = 0 ∧ (0 : Nat) &&& OPT_s = 0 ∧
    (kernelOf 0 4096 2 (bytes "a\n")).size = 4096 ∧
    (dmesg_main ⟨true, true⟩ (kernelOf 0 4096 2 (bytes "a\n")) 0 0 0).syscalls
      = [(10, 0), (3, 16384)] ∧
    readCapacity (kernelOf 0 4096 2 (bytes "a\n")) 0 0 ≠ 4096 := by
  decide

/-- C13, amended: when neither `-s` nor `-n` is given, the invocation
queries the size and then reads, and for every value `q` returned by the
query the length passed to the read is `max(16384, min(q, 16777216))`: the
limits of lines 113-116 apply to the queried size as they do to a requested
one, so the length is `q` itself exactly when `q` lies between 16 KiB and
16 MiB. -/
theorem queried_size_clamped (cfg : Config) (k : Kernel) (opts : Nat) (len level : Int)
    (hn : opts &&& OPT_n = 0) (hs : opts &&& OPT_s = 0) :
    (dmesg_main cfg k opts len level).syscalls =
      [(10, 0), (3 + (opts &&& OPT_c), max 16384 (min k.size 16777216))] ∧
    readCapacity k opts len = max 16384 (min k.size 16777216) ∧
    (readCapacity k opts len = k.size ↔ 16384 ≤ k.size ∧ k.size ≤ 16777216) := by
  have h := readCapacity_query k opts len hs
  refine ⟨?_, h, ?_⟩
  · rw [dmesg_main_syscalls_read cfg k opts len level hn, h]
    simp [hs]
  · rw [h]
    omega

theorem queried_size_clamped_witness :
    OPT_c &&& OPT_n = 0 ∧ OPT_c &&& OPT_s = 0 ∧
    (dmesg_main ⟨true, true⟩ (kernelOf 0 65536 2 (bytes "a\n")) OPT_c 0 0).syscalls
      = [(10, 0), (4, 65536)] :=
  ⟨by decide, by decide,
    (queried_size_clamped ⟨true, true⟩ (kernelOf 0 65536 2 (bytes "a\n")) OPT_c 0 0
      (by decide) (by decide)).1⟩

theorem dmesg_main_outcome_read (cfg : Config) (k : Kernel) (opts : Nat) (len level : Int)
    (hn : opts &&& OPT_n = 0) :
    (dmesg_main cfg k opts len level).outcome =
      (if (k.read (3 + (opts &&& OPT_c)) (readCapacity k opts len)).1 < 0
        then Outcome.died "klogctl" else Outcome.returned EXIT_SUCCESS) := by
  unfold dmesg_main
  simp only [hn, ne_eq, not_true_eq_false, if_false]
  split
  · rfl
  · split <;> rfl

theorem dmesg_main_out_read (cfg : Config) (k : Kernel) (opts : Nat) (len level : Int)
    (hn : opts &&& OPT_n = 0)
    (h : (k.read (3 + (opts &&& OPT_c)) (readCapacity k opts len)).1 ≤ 0) :
    (dmesg_main cfg k opts len level).out = [] := by
  unfold dmesg_main
  simp only [hn, ne_eq, not_true_eq_false, if_false]
  split
  · rfl
  · split
    · rfl
    · omega

theorem failed_size_query_counterexample :
    (0 : Nat) &&& OPT_n = 0 ∧ (0 : Nat) &&& OPT_s = 0 ∧
    (kernelOf 0 (-1) 2 (bytes "a\n")).size < 0 ∧
    dmesg_main ⟨true, true⟩ (kernelOf 0 (-1) 2 (bytes "a\n")) 0 0 0 =
      { syscalls := [(10, 0), (3, 16384)],
        out := [Emit.putchar 97, Emit.putchar 10],
        outcome := Outcome.returned 0 } ∧
    (dmesg_main ⟨true, true⟩ (kernelOf 0 (-1) 2 (bytes "a\n")) 0 0 0).outcome.status = 0 := by
  decide

/-- C14, amended: when neither `-s` nor `-n` is given and the size query
fails (returns a negative value), the invocation goes on: the negative
value is raised to 16384 by line 113 and the read is made with that
length; the invocation ends with a nonzero status only if this read
returns a negative length, and returns `EXIT_SUCCESS` otherwise. -/
theorem failed_size_query_not_fatal (cfg : Config) (k : Kernel) (opts : Nat) (len level : Int)
    (hn : opts &&& OPT_n = 0) (hs : opts &&& OPT_s = 0) (hq : k.size < 0) :
    (dmesg_main cfg k opts len level).syscalls = [(10, 0), (3 + (opts &&& OPT_c), 16384)] ∧
    ((dmesg_main cfg k opts len level).outcome.status ≠ 0 ↔
      (k.read (3 + (opts &&& OPT_c)) 16384).1 < 0) ∧
    ((dmesg_main cfg k opts len level).outcome = Outcome.returned EXIT_SUCCESS ↔
      0 ≤ (k.read (3 + (opts &&& OPT_c)) 16384).1) := by
  have hcap : readCapacity k opts len = 16384 := by
    rw [readCapacity_query k opts len hs]; omega
  have ho := dmesg_main_outcome_read cfg k opts len level hn
  rw [hcap] at ho
  refine ⟨?_, ?_, ?_⟩
  · rw [dmesg_main_syscalls_read cfg k opts len level hn, hcap]
    simp [hs]
  · rw [ho]
    by_cases h : (k.read (3 + (opts &&& OPT_c)) 16384).1 < 0 <;>
      simp [h, Outcome.status, xfunc_error_retval, EXIT_SUCCESS]
  · rw [ho]
    by_cases h : (k.read (3 + (opts &&& OPT_c)) 16384).1 < 0
    · simp [h]
    · simp only [h, if_false, true_iff]; omega

theorem failed_size_query_not_fatal_witness :
    OPT_c &&& OPT_n = 0 ∧ OPT_c &&& OPT_s = 0 ∧ (kernelOf 0 (-1) (-1) []).size < 0 ∧
    (dmesg_main ⟨true, true⟩ (kernelOf 0 (-1) (-1) []) OPT_c 0 0).syscalls
      = [(10, 0), (4, 16384)] :=
  ⟨by decide, by decide, by decide,
    (failed_size_query_not_fatal ⟨true, true⟩ (kernelOf 0 (-1) (-1) []) OPT_c 0 0
      (by decide) (by decide) (by decide)).1⟩

/-- C15: a read that returns a negative length ends the invocation in
`bb_perror_msg_and_die`, with a nonzero status and nothing written to the
output; so does a set-level request that returns a nonzero value; a read
that returns a length of 0 or more, and a set-level request that returns 0,
make the invocation return `EXIT_SUCCESS`, which is 0. -/
theorem failures_are_fatal (cfg : Config) (k : Kernel) (opts : Nat) (len level : Int) :
    (opts &&& OPT_n = 0 → (k.read (3 + (opts &&& OPT_c)) (readCapacity k opts len)).1 < 0 →
      (dmesg_main cfg k opts len level).outcome = Outcome.died "klogctl" ∧
      (dmesg_main cfg k opts len level).outcome.status ≠ 0 ∧
      (dmesg_main cfg k opts len level).out = []) ∧
    (opts &&& OPT_n ≠ 0 → k.setLevel level ≠ 0 →
      (dmesg_main cfg k opts len level).outcome = Outcome.died "klogctl" ∧
      (dmesg_main cfg k opts len level).outcome.status ≠ 0) ∧
    (opts &&& OPT_n = 0 → 0 ≤ (k.read (3 + (opts &&& OPT_c)) (readCapacity k opts len)).1 →
      (dmesg_main cfg k opts len level).outcome = Outcome.returned EXIT_SUCCESS ∧
      (dmesg_main cfg k opts len level).outcome.status = 0) ∧
    (opts &&& OPT_n ≠ 0 → k.setLevel level = 0 →
      (dmesg_main cfg k opts len level).outcome = Outcome.returned EXIT_SUCCESS ∧
      (dmesg_main cfg k opts len level).outcome.status = 0) := by
  refine ⟨?_, ?_, ?_, ?_⟩
  · intro hn hr
    rw [dmesg_main_outcome_read cfg k opts len level hn, if_pos hr]
    exact ⟨rfl, by decide, dmesg_main_out_read cfg k opts len level hn (by omega)⟩
  · intro hn hl
    unfold dmesg_main
    simp [hn, hl, Outcome.status, xfunc_error_retval]
  · intro hn hr
    rw [dmesg_main_outcome_read cfg k opts len level hn, if_neg (by omega)]
    exact ⟨rfl, rfl⟩
  · intro hn hl
    unfold dmesg_main
    simp [hn, hl, Outcome.status, EXIT_SUCCESS]

theorem failures_are_fatal_witness :
    OPT_s &&& OPT_n = 0 ∧
    (kernelOf 0 0 (-1) []).read (3 + (OPT_s &&& OPT_c))
      (readCapacity (kernelOf 0 0 (-1) []) OPT_s 70000) = (-1, []) ∧
    dmesg_main ⟨true, true⟩ (kernelOf 0 0 (-1) []) OPT_s 70000 0 =
      { syscalls := [(3, 70000)], out := [], outcome := Outcome.died "klogctl" } ∧
    (dmesg_main ⟨true, true⟩ (kernelOf 0 0 (-1) []) OPT_s 70000 0).outcome.status ≠ 0 :=
  ⟨by decide, by decide, by decide,
    ((failures_are_fatal ⟨true, true⟩ (kernelOf 0 0 (-1) []) OPT_s 70000 0).1
      (by decide) (by decide)).2.1⟩

/-- C16: when the read returns the length 0, whatever the options `-c`,
`-r`, `-C` and `-s` are, no output call is made (neither the scan nor the
raw write runs), so the output has no byte, no newline and no escape
sequence, and the invocation returns `EXIT_SUCCESS`, which is 0. -/
theorem empty_buffer (cfg : Config) (k : Kernel) (opts : Nat) (len level : Int)
    (hn : opts &&& OPT_n = 0)
    (h0 : (k.read (3 + (opts &&& OPT_c)) (readCapacity k opts len)).1 = 0) :
    (dmesg_main cfg k opts len level).out = [] ∧
    render (dmesg_main cfg k opts len level).out = [] ∧
    (dmesg_main cfg k opts len level).outcome = Outcome.returned EXIT_SUCCESS ∧
    (dmesg_main cfg k opts len level).outcome.status = 0 := by
  have ho := dmesg_main_out_read cfg k opts len level hn (by omega)
  rw [ho, dmesg_main_outcome_read cfg k opts len level hn, if_neg (by omega)]
  exact ⟨rfl, rfl, rfl, rfl⟩

theorem empty_buffer_witness :
    (OPT_c + OPT_r + OPT_C) &&& OPT_n = 0 ∧
    ((kernelOf 0 65536 0 (bytes "<3>old")).read (3 + ((OPT_c + OPT_r + OPT_C) &&& OPT_c))
      (readCapacity (kernelOf 0 65536 0 (bytes "<3>old")) (OPT_c + OPT_r + OPT_C) 0)).1 = 0 ∧
    (dmesg_main ⟨true, true⟩ (kernelOf 0 65536 0 (bytes "<3>old")) (OPT_c + OPT_r + OPT_C)
      0 0).out = [] :=
  ⟨by decide, by decide,
    (empty_buffer ⟨true, true⟩ (kernelOf 0 65536 0 (bytes "<3>old")) (OPT_c + OPT_r + OPT_C)
      0 0 (by decide) (by decide)).1⟩

/-! ## Colour and text -/

/-- The scan with colour makes the `putchar` calls of the scan without
colour and ends with the same `last`. -/
theorem scanM_text (tail tail2 : List Nat) :
    ∀ (l : List Nat) (f : Bool) (last : Nat) (lv col lv2 col2 : Int),
      dropEscapes (scanM true tail f last lv col l).2 = (scanM false tail2 f last lv2 col2 l).2 ∧
      (scanM true tail f last lv col l).1.1 = (scanM false tail2 f last lv2 col2 l).1.1 := by
  intro l
  induction l with
  | nil => intro f last lv col lv2 col2; cases f <;> simp [scanM, dropEscapes]
  | cons c t ih =>
    intro f last lv col lv2 col2
    cases f with
    | true =>
      by_cases hc : c = 62
      · simp only [scanM, hc, if_true]; exact ih _ _ _ _ _ _
      · simp only [scanM, hc, if_false]; exact ih _ _ _ _ _ _
    | false =>
      by_cases hc : last = 10 ∧ c = 60
      · simp only [scanM, hc, and_self, if_true, Bool.false_eq_true, if_false]
        have := ih true 10 (match sscanf_d (t ++ tail) with | some v => v | none => lv)
          (colorOfLevel (match sscanf_d (t ++ tail) with | some v => v | none => lv)) lv2 col2
        refine ⟨?_, this.2⟩
        rw [← this.1]
        simp [dropEscapes, Emit.isText]
      · simp only [scanM, hc, if_false]
        have := ih false c lv col lv2 col2
        refine ⟨?_, this.2⟩
        rw [← this.1]
        simp [dropEscapes, Emit.isText]

theorem scanM_nocolor_color (tail : List Nat) (l : List Nat) (f : Bool) (last : Nat)
    (lv col : Int) : (scanM false tail f last lv col l).1.2.2 = col := by
  obtain ⟨_, _, _, _, h⟩ := scanM_nocolor tail l f last lv col
  exact h

/-- C18: for every non-empty buffer, the output calls of colour mode with
every `set_color` call deleted are the output calls of pretty mode without
colour, so the bytes left when the escape sequences are deleted are the
output without colour: the same bytes are skipped, the same bytes are
copied and the same newline is or is not appended. -/
theorem color_keeps_text (cfg cfg2 : Config) (opts opts2 : Nat) (buf tail tail2 : List Nat)
    (level0 level2 : Int) (hcol : ColorMode cfg opts) (hplain : PrettyNoColor cfg2 opts2)
    (hb : buf ≠ []) :
    dropEscapes (formatCalls cfg opts buf tail level0) = formatCalls cfg2 opts2 buf tail2 level2 ∧
    render (dropEscapes (formatCalls cfg opts buf tail level0))
      = format cfg2 opts2 buf tail2 level2 := by
  obtain ⟨hp, hc⟩ := colorMode_branch hcol
  obtain ⟨hp2, hc2⟩ := prettyNoColor_branch hplain
  have hmain : dropEscapes (formatCalls cfg opts buf tail level0)
      = formatCalls cfg2 opts2 buf tail2 level2 := by
    rw [formatCalls_pretty cfg opts buf tail level0 hb hp, hc,
      formatCalls_pretty cfg2 opts2 buf tail2 level2 hb hp2, hc2]
    obtain ⟨h1, h2⟩ := scanM_text tail tail2 buf false 10 level0 0 level2 0
    have h3 := scanM_nocolor_color tail2 buf false 10 level2 0
    unfold scanL
    rw [← h1, ← h2, h3]
    unfold dropEscapes
    rw [List.filter_append, List.filter_append]
    by_cases hl : (scanM true tail false 10 level0 0 buf).1.1 = 10 <;>
      by_cases hk : (scanM true tail false 10 level0 0 buf).1.2.2 = 0 <;>
      simp [hl, hk, Emit.isText]
  exact ⟨hmain, by rw [hmain]; rfl⟩

theorem color_keeps_text_witness :
    ColorMode ⟨true, true⟩ OPT_C ∧ PrettyNoColor ⟨true, true⟩ 0 ∧ bytes "<3>a\n<x>b" ≠ [] ∧
    formatCalls ⟨true, true⟩ OPT_C (bytes "<3>a\n<x>b") [] 0 =
      [Emit.set_color 91, Emit.putchar 97, Emit.putchar 10, Emit.set_color 91,
        Emit.putchar 98, Emit.putchar 10, Emit.set_color 0] ∧
    render (dropEscapes (formatCalls ⟨true, true⟩ OPT_C (bytes "<3>a\n<x>b") [] 0))
      = format ⟨true, true⟩ 0 (bytes "<3>a\n<x>b") [] 0 :=
  ⟨by decide, by decide, by decide, by decide,
    (color_keeps_text ⟨true, true⟩ ⟨true, true⟩ OPT_C 0 (bytes "<3>a\n<x>b") [] [] 0 0
      (by decide) (by decide) (by decide)).2⟩

/-- Without colour the bytes written by the scan are a sublist of the
bytes scanned. -/
theorem scanM_sublist (tail : List Nat) :
    ∀ (l : List Nat) (f : Bool) (last : Nat) (lv col : Int),
      (render (scanM false tail f last lv col l).2).Sublist l := by
  intro l
  induction l with
  | nil => intro f last lv col; cases f <;> simp [scanM, render]
  | cons c t ih =>
    intro f last lv col
    cases f with
    | true =>
      by_cases hc : c = 62
      · simp only [scanM, hc, if_true]; exact List.Sublist.cons _ (ih _ _ _ _)
      · simp only [scanM, hc, if_false]; exact List.Sublist.cons _ (ih _ _ _ _)
    | false =>
      by_cases hc : last = 10 ∧ c = 60
      · simp only [scanM, hc, and_self, if_true, Bool.false_eq_true, if_false]
        exact List.Sublist.cons _ (ih _ _ _ _)
      · simp only [scanM, hc, if_false, render, Emit.bytes, List.singleton_append]
        exact List.Sublist.cons₂ _ (ih _ _ _ _)

/-- C20: in pretty mode without colour, for every non-empty buffer, the
output is the bytes written by the scan followed by at most one newline,
and the bytes written by the scan are a sublist of the buffer: bytes of the
buffer in their order, nothing inserted; hence the output has at most
`len + 1` bytes. -/
theorem formatter_only_deletes (cfg : Config) (opts : Nat) (buf tail : List Nat) (level0 : Int)
    (hmode : PrettyNoColor cfg opts) (hb : buf ≠ []) :
    (scanOutput cfg opts buf tail level0).Sublist buf ∧
    format cfg opts buf tail level0 =
      scanOutput cfg opts buf tail level0 ++
        (if endsInText (scanCalls cfg opts buf tail level0) then [10] else []) ∧
    (format cfg opts buf tail level0).length ≤ buf.length + 1 := by
  obtain ⟨hp, hc⟩ := prettyNoColor_branch hmode
  have hsub : (scanOutput cfg opts buf tail level0).Sublist buf := by
    unfold scanOutput
    rw [scanCalls_eq cfg opts buf tail level0 hb, hc]
    exact scanM_sublist tail buf false 10 level0 0
  have hfmt : format cfg opts buf tail level0 =
      scanOutput cfg opts buf tail level0 ++
        (if endsInText (scanCalls cfg opts buf tail level0) then [10] else []) := by
    unfold format scanOutput
    rw [formatCalls_scan cfg opts buf tail level0 hp hb, scanRun_eq cfg opts buf tail level0 hb, hc]
    have h3 : (scanL false tail 10 level0 0 buf).1.2.2 = 0 :=
      scanM_nocolor_color tail buf false 10 level0 0
    simp only [h3, ne_eq, not_true_eq_false, if_false, List.append_nil, render_append]
    by_cases he : endsInText (scanCalls cfg opts buf tail level0) = true <;>
      simp [he, render, Emit.bytes]
  refine ⟨hsub, hfmt, ?_⟩
  rw [hfmt, List.length_append]
  have h1 := hsub.length_le
  by_cases he : endsInText (scanCalls cfg opts buf tail level0) = true
  · simp only [he, if_true, List.length_singleton]; omega
  · simp only [he, Bool.false_eq_true, if_false, List.length_nil]; omega

theorem formatter_only_deletes_witness :
    PrettyNoColor ⟨true, true⟩ 0 ∧ bytes "<5><3>a<b\n<x\ny>c" ≠ [] ∧
    scanOutput ⟨true, true⟩ 0 (bytes "<5><3>a<b\n<x\ny>c") [] 0 = bytes "a<b\nc" ∧
    (scanOutput ⟨true, true⟩ 0 (bytes "<5><3>a<b\n<x\ny>c") [] 0).Sublist
      (bytes "<5><3>a<b\n<x\ny>c") :=
  ⟨by decide, by decide, by decide,
    (formatter_only_deletes ⟨true, true⟩ 0 (bytes "<5><3>a<b\n<x\ny>c") [] 0
      (by decide) (by decide)).1⟩

/-! ## Reads -/

theorem skipTagReads_in_bounds (mem : List Nat) (len : Nat) :
    ∀ (fuel i : Nat), i < len → ∀ r ∈ skipTagReads mem len fuel i,
      r.isParse = false ∧ r.index < len := by
  intro fuel
  induction fuel with
  | zero => intro i _ r hr; simp [skipTagReads] at hr
  | succ n ih =>
    intro i hi r hr
    simp only [skipTagReads, List.mem_cons] at hr
    rcases hr with hr | hr
    · subst hr; exact ⟨rfl, hi⟩
    · by_cases hc : rd mem i ≠ 62 ∧ i + 1 < len
      · rw [if_pos hc] at hr
        exact ih (i + 1) hc.2 r hr
      · rw [if_neg hc] at hr
        simp at hr

/-- Every read of the scan other than those of the severity parse is
inside the buffer. -/
theorem scanLoopReads_in_bounds (colorOn : Bool) (mem : List Nat) (len : Nat) :
    ∀ (fuel : Nat) (s : Scan), s.pos < len → ∀ r ∈ scanLoopReads colorOn mem len fuel s,
      r.isParse = false → r.index < len := by
  intro fuel
  induction fuel with
  | zero => intro s _ r hr; simp [scanLoopReads] at hr
  | succ n ih =>
    intro s hs r hr hnp
    simp only [scanLoopReads, List.mem_append] at hr
    rcases hr with hr | hr
    · simp only [scanStepReads, List.mem_append] at hr
      rcases hr with hr | hr
      · by_cases hl : s.last = 10
        · simp only [hl, if_true, List.mem_singleton] at hr
          subst hr; exact hs
        · simp [hl] at hr
      · by_cases hc : s.last = 10 ∧ rd mem s.pos = 60
        · rw [if_pos hc, List.mem_append] at hr
          rcases hr with hr | hr
          · cases colorOn with
            | true =>
              simp only [if_true, List.mem_map] at hr
              obtain ⟨j, _, hj⟩ := hr
              subst hj
              simp [Read.isParse] at hnp
            | false => simp at hr
          · exact (skipTagReads_in_bounds mem len len s.pos hs r hr).2
        · rw [if_neg hc, List.mem_singleton] at hr
          subst hr; exact hs
    · by_cases hend : len ≤ (scanStep colorOn mem len s).1.pos
      · simp [hend] at hr
      · rw [if_neg hend] at hr
        exact ih _ (by omega) r hr hnp

/-- In raw mode and in pretty mode, with or without colour, every read of
the formatter other than those of the severity parse is at an index below
`len`; without colour there is no read of the severity parse. -/
theorem formatReads_in_bounds (cfg : Config) (opts : Nat) (buf tail : List Nat) (level0 : Int)
    (hb : buf ≠ []) :
    ∀ r ∈ formatReads cfg opts buf tail level0, r.isParse = false → r.index < buf.length := by
  have hlen : 0 < buf.length := List.length_pos.mpr hb
  intro r hr hnp
  unfold formatReads at hr
  by_cases hp : prettyBranch cfg opts = true
  · rw [if_pos hp] at hr
    exact scanLoopReads_in_bounds _ _ _ _ _ hlen r hr hnp
  · rw [if_neg hp] at hr
    simp only [List.mem_append, List.mem_map, List.mem_range, List.mem_singleton] at hr
    rcases hr with ⟨i, hi, rfl⟩ | rfl
    · exact hi
    · simp only [Read.index]; omega

/-- C17, at the input `a`, newline, `<` (3 bytes) in colour mode: the scan
cursor and the skip loop read the indices 0, 1, 2 and 2, but the severity
parse starts at the byte after `<`, the index 3, which is not below
`len`. -/
theorem parse_reads_past_end :
    ColorMode ⟨true, true⟩ OPT_C ∧ (bytes "a\n<").length = 3 ∧
    formatReads ⟨true, true⟩ OPT_C (bytes "a\n<") [] 0 =
      [Read.cursor 0, Read.cursor 0, Read.cursor 1, Read.cursor 2, Read.parse 3, Read.skip 2] ∧
    Read.parse 3 ∈ formatReads ⟨true, true⟩ OPT_C (bytes "a\n<") [] 0 ∧
    ¬ (Read.parse 3).index < (bytes "a\n<").length ∧
    formatReads ⟨true, true⟩ OPT_C (bytes "<12") [] 0 =
      [Read.cursor 0, Read.parse 1, Read.parse 2, Read.parse 3,
        Read.skip 0, Read.skip 1, Read.skip 2] := by
  decide

/-! ## Lines that begin with `<` -/

/-- Without colour, a scan that meets a `<` at the start of a line writes
fewer bytes than it reads. -/
theorem scanM_drops_lt (tail : List Nat) (lv col : Int) :
    ∀ (l : List Nat) (last : Nat), noLtAtLineStart last l = false →
      (render (scanM false tail false last lv col l).2).length < l.length := by
  intro l
  induction l with
  | nil => intro last h; simp [noLtAtLineStart] at h
  | cons c t ih =>
    intro last h
    by_cases hc : last = 10 ∧ c = 60
    · have hsub := (scanM_sublist tail t true 10 lv col).length_le
      simp only [scanM, hc, and_self, if_true, Bool.false_eq_true, if_false, List.length_cons]
      omega
    · have hnext : noLtAtLineStart c t = false := by
        simp only [noLtAtLineStart, Bool.and_eq_false_iff, Bool.not_eq_false',
          Bool.and_eq_true, beq_iff_eq] at h
        rcases h with h | h
        · exact absurd h hc
        · exact h
      have := ih c hnext
      simp only [scanM, hc, if_false, List.length_cons, render, Emit.bytes,
        List.singleton_append]
      omega

/-- Pretty mode without colour and raw mode write different bytes for a
non-empty buffer in which some line starts with `<`. -/
theorem pretty_ne_raw_of_lt (cfg cfg2 : Config) (opts opts2 : Nat)
    (buf tail tail2 : List Nat) (level0 level2 : Int)
    (hmode : PrettyNoColor cfg opts) (hraw : RawMode cfg2 opts2) (hb : buf ≠ [])
    (h : noLtAtLineStart 10 buf = false) :
    format cfg opts buf tail level0 ≠ format cfg2 opts2 buf tail2 level2 := by
  obtain ⟨hp, hc⟩ := prettyNoColor_branch hmode
  obtain ⟨out, h1, _, h3, h4⟩ := format_nocolor cfg opts buf tail level0 hmode hb
  have hlen : out.length < buf.length := by
    have := scanM_drops_lt tail level0 0 buf 10 h
    have h5 : (scanM false tail false 10 level0 0 buf).2 = out.map Emit.putchar := by
      rw [← h1, scanCalls_eq cfg opts buf tail level0 hb, hc]; rfl
    rw [h5, render_putchars] at this
    exact this
  have hraw2 : format cfg2 opts2 buf tail2 level2
      = buf ++ (if buf.getLast? = some 10 then [] else [10]) := by
    unfold format
    rw [formatCalls_raw cfg2 opts2 buf tail2 level2 hb (rawMode_branch hraw)]
    by_cases hl : buf.getLast? = some 10 <;> simp [hl, render, Emit.bytes]
  intro heq
  rw [h4, hraw2] at heq
  have hl := congrArg List.length heq
  by_cases h10 : buf.getLast? = some 10
  · have hfin : lastOr 10 out = 10 := by
      by_contra hne
      rw [← h3] at hne
      rcases scanM_last_byte false tail buf false 10 level0 0 (by simp) hne with ⟨he, _⟩ | he
      · exact hb he
      · rw [h10] at he
        exact hne (Option.some.inj he).symm
    simp [hfin, h10] at hl
    omega
  · by_cases hfin : lastOr 10 out = 10
    · simp [hfin, h10] at hl
      omega
    · simp [hfin, h10] at hl
      omega

end Dmesg
